import Mathlib

/-!
Verification of the Qt-Multithreading framework (signals/slots dispatch layer
and worker pool) against its natural-language specification.

The development shallowly embeds the C++ sources:
 - `WorkerController` (examples/three, WorkerController part): worker records,
   task queue, ready set, resize, assignment loop, ready notifications;
 - `Magic.h`: `Signal` / `SlotProvider` connection tables, `registerSlot`,
   `disconnect`, destructors, sender stacks, `invokeInContext`;
 - `Worker.h` / `Processor.h`: `setupConnections` field updates.

Machine integers (`std::size_t`) are modelled as `Nat` with explicit wrap-around
`% 2^64` where C++ overflow semantics matter.  Pointers and `QUuid`s are
modelled as `Nat` identifiers (`0` plays the role of `nullptr` only where the
source compares against `nullptr`; elsewhere identifiers are arbitrary).
-/

namespace QtMT

/-- The Qt connection types used by the sources
(`Qt::ConnectionType`, restricted to the constants that occur). -/
inductive CType where
  | auto
  | direct
  | queued
  | blockingQueued
deriving DecidableEq, Repr

/-! ## Worker pool: `WorkerController` (examples/three WorkerController part)

State of one `WorkerController<T,R>` with task type `T := Nat`.
A worker record models one entry of
`std::vector<std::tuple<std::unique_ptr<QThread>, Worker*, QUuid>>`:
the `QUuid` is the `uniqueWorkerUUID` minted by `QUuid::createUuid()`
(modelled by a fresh-counter `nextUuid`).  The `busy` flag is ghost state
recording that the worker has been dispatched a task whose ready notification
has not yet been accepted ("has exactly one outstanding task" in the spec):
it is set when `checkTasks` dispatches to the worker and cleared when
`workerFinished` accepts that worker's notification. -/
structure WorkerRec where
  uuid : Nat
  busy : Bool
deriving DecidableEq, Repr

instance : Inhabited WorkerRec := ⟨⟨0, false⟩⟩

/-- One dispatch performed by `checkTasks`:
`invokeInContext(threads[idx] worker, Qt::QueuedConnection, receiveTask, task)`. -/
structure Dispatch where
  idx : Nat
  task : Nat
  mode : CType
deriving DecidableEq, Repr

/-- The owned state of `WorkerController<T,R>`. -/
structure WCState where
  threads : List WorkerRec
  tasks : List Nat
  workersReady : Finset Nat
  isInDestructor : Bool
  nextUuid : Nat

/-- `2^64`, the modulus of `std::size_t` arithmetic. -/
def szMod : Nat := 2 ^ 64

/-- The loop body of `WorkerController::checkTasks`.  The C++ loop iterates the
`std::set` ascending from `begin()`, erasing the visited index (`erase` returns
the next iterator) and popping the front task, while tasks remain; this equals
repeatedly taking the minimum of the remaining set.  Dispatching marks the
chosen worker busy (ghost) and records the dispatch
(`Qt::QueuedConnection`, see `checkTasks` in the source).
Recursion is structural on the task list (one task consumed per iteration). -/
def checkLoop : List Nat → Finset Nat → List WorkerRec →
    List WorkerRec × Finset Nat × List Nat × List Dispatch
  | [], ready, ths => (ths, ready, [], [])
  | t :: rest, ready, ths =>
    if h : ready.Nonempty then
      let i := ready.min' h
      let ths' := ths.set i { ths.getD i default with busy := true }
      let out := checkLoop rest (ready.erase i) ths'
      (out.1, out.2.1, out.2.2.1, ⟨i, t, CType.queued⟩ :: out.2.2.2)
    else
      (ths, ready, t :: rest, [])

/-- `WorkerController::checkTasks`, effect on the state (dispatches dropped). -/
def checkTasksState (s : WCState) : WCState :=
  let out := checkLoop s.tasks s.workersReady s.threads
  { s with threads := out.1, workersReady := out.2.1, tasks := out.2.2.1 }

/-- The dispatches performed by one `checkTasks` call. -/
def checkTasksDispatches (s : WCState) : List Dispatch :=
  (checkLoop s.tasks s.workersReady s.threads).2.2.2

/-- `WorkerController::setNumberOfThreads`.
 - `n = 0`: quit and join every worker thread, clear records and ready set;
 - `n < current`: pop the tail records (indices `current-1` down to `n`) and
   erase those indices from the ready set;
 - `n > current` and not in the destructor: for each new index clone the
   prototype (fresh `QUuid`, modelled by the counter), insert the index into
   the ready set, wire it with `workerUUID = index + 1`, then run `checkTasks`;
 - otherwise (equal count, or growing while destructing): no change. -/
def setNumberOfThreads (s : WCState) (n : Nat) : WCState :=
  let cur := s.threads.length
  if n = 0 then
    { s with threads := [], workersReady := ∅ }
  else if n < cur then
    { s with threads := s.threads.take n,
             workersReady := s.workersReady \ Finset.Ico n cur }
  else if ¬ s.isInDestructor ∧ n > cur then
    checkTasksState
      { s with
        threads := s.threads ++ (List.range (n - cur)).map
          (fun k => { uuid := s.nextUuid + k, busy := false }),
        workersReady := s.workersReady ∪ Finset.Ico cur n,
        nextUuid := s.nextUuid + (n - cur) }
  else s

/-- `WorkerController::clearQueue`. -/
def clearQueue (s : WCState) : WCState :=
  if ¬ s.isInDestructor then { s with tasks := [] } else s

/-- `WorkerController::extendQueue`: append the new tasks at the back
(`insert` at `cend()`), then `checkTasks`. -/
def extendQueue (s : WCState) (newTasks : List Nat) : WCState :=
  if ¬ s.isInDestructor then
    checkTasksState { s with tasks := s.tasks ++ newTasks }
  else s

/-- `WorkerController::workerFinished(workerID, workerUUID)`.
`threadIndex = workerID - 1` in `std::size_t` arithmetic (wraps at `2^64`);
the notification is accepted iff `threadIndex < threads.size()` and the stored
`QUuid` at that index equals `workerUUID`; acceptance inserts the index into
the ready set (ghost: clears the worker's busy flag) and runs `checkTasks`;
otherwise the state is unchanged. -/
def workerFinished (s : WCState) (workerID workerUUID : Nat) : WCState :=
  let threadIndex := (workerID + (szMod - 1)) % szMod
  if threadIndex < s.threads.length ∧
      workerUUID = (s.threads.getD threadIndex default).uuid then
    checkTasksState
      { s with
        threads := s.threads.set threadIndex
          { s.threads.getD threadIndex default with busy := false },
        workersReady := insert threadIndex s.workersReady }
  else s

/-- The state of a fresh `WorkerController` before the constructor's
`setNumberOfThreads(numberOfThreads)` call. -/
def initWC : WCState :=
  { threads := [], tasks := [], workersReady := ∅,
    isInDestructor := false, nextUuid := 0 }

/-- States reachable from the initial state by the controller's operations
(the constructor's `setNumberOfThreads` call is the first step). -/
inductive WCReachable : WCState → Prop where
  | init : WCReachable initWC
  | setThreads {s} (n : Nat) : WCReachable s → WCReachable (setNumberOfThreads s n)
  | clear {s} : WCReachable s → WCReachable (clearQueue s)
  | extend {s} (l : List Nat) : WCReachable s → WCReachable (extendQueue s l)
  | check {s} : WCReachable s → WCReachable (checkTasksState s)
  | finished {s} (wid uuid : Nat) : WCReachable s → WCReachable (workerFinished s wid uuid)

/-- The ready-set correspondence: every ready index is a valid index, and a
valid index is ready exactly when its worker is not busy
("in ReadySet or has exactly one outstanding task"). -/
def WCInv (s : WCState) : Prop :=
  ∀ i, i ∈ s.workersReady ↔ (i < s.threads.length ∧ (s.threads.getD i default).busy = false)

/-! ## Dispatch layer: `Magic.h`

Endpoints (`SignalProvider*` / `SlotProvider*`) and slot identities (`void*`
cookies from `functionToPointer`) are modelled as `Nat` identifiers.

A `Signal`'s forward table
`std::unordered_map<SlotProvider*, std::vector<std::tuple<void*, std::function<...>>>>`
is an association list `FTable`: receiver id mapped to the ordered row vector;
a row keeps the slot cookie and the `Qt::ConnectionType` captured by the
invoker closure built in `registerSlot`.
A `SlotProvider`'s inverse table
`std::unordered_map<void*, std::vector<SignalProvider*>>` is an association
list `ITable`: slot cookie mapped to the ordered emitter vector.
The iteration order of the C++ `unordered_map`s is unspecified; every loop in
the source either modifies each entry independently or collects the key set,
so the association-list order is immaterial to the modelled results. -/

/-- A forward-table row: slot cookie and the captured connection type. -/
abbrev Row := Nat × CType

/-- Forward table of one `Signal` (`Signal::connectedSlots`). -/
abbrev FTable := List (Nat × List Row)

/-- Inverse table of one `SlotProvider` (`SlotProvider::slotsToConnectedSignals`). -/
abbrev ITable := List (Nat × List Nat)

/-- First-match association-list lookup (`unordered_map` access; the tables
keep keys unique, see `DInv`). -/
def alookup {α : Type} : List (Nat × α) → Nat → Option α
  | [], _ => none
  | kv :: t, k => if kv.1 = k then some kv.2 else alookup t k

/-- `unordered_map::count` as a Boolean. -/
def acontains {α : Type} (l : List (Nat × α)) (k : Nat) : Bool :=
  (alookup l k).isSome

/-- Lookup defaulting to the empty vector (absent key ≡ empty entry). -/
def lookupD {β : Type} (l : List (Nat × List β)) (k : Nat) : List β :=
  (alookup l k).getD []

/-- Modify every entry's value, keeping keys (a `for (auto &key_value : map)`
loop that mutates `key_value.second`). -/
def mapVals {α : Type} (g : Nat → α → α) (l : List (Nat × α)) : List (Nat × α) :=
  l.map (fun kv => (kv.1, g kv.1 kv.2))

/-- `map[k].emplace_back(b)` preceded by the `count` check of
`registerConnection` / `appendConnection`: extend the existing entry or create
a fresh singleton entry. -/
def apush {β : Type} (l : List (Nat × List β)) (k : Nat) (b : β) : List (Nat × List β) :=
  if acontains l k then mapVals (fun k' v => if k' = k then v ++ [b] else v) l
  else l ++ [(k, [b])]

/-- `map.erase(k)` (remove the whole entry for a key). -/
def akeyErase {α : Type} (l : List (Nat × α)) (k : Nat) : List (Nat × α) :=
  l.filter (fun kv => kv.1 ≠ k)

/-- Remove the first row carrying slot cookie `f` from a row vector
(the `erase`/`break` loops in `Signal::disconnectLocalInSignal`). -/
def eraseRow (f : Nat) (rows : List Row) : List Row :=
  rows.eraseP (fun p => p.1 = f)

/-- `Signal::disconnectLocalInSignal(slot, slotProvider)` acting on the
signal's forward table; `none` is the `nullptr` wildcard. -/
def dLIS (slot : Option Nat) (recv : Option Nat) (tf : FTable) : FTable :=
  match slot, recv with
  | none, none => []
  | none, some r => akeyErase tf r
  | some f, none => mapVals (fun _ rows => eraseRow f rows) tf
  | some f, some r => mapVals (fun k rows => if k = r then eraseRow f rows else rows) tf

/-- `SlotProvider::disconnectLocalInSlotProvider(slot, signalProvider)` acting
on the receiver's inverse table; `none` is the `nullptr` wildcard. -/
def dLISP (slot : Option Nat) (sig : Option Nat) (ti : ITable) : ITable :=
  match slot, sig with
  | none, none => []
  | some f, none => akeyErase ti f
  | none, some e => mapVals (fun _ es => es.erase e) ti
  | some f, some e => mapVals (fun k es => if k = f then es.erase e else es) ti

/-- `Signal::getConnectedSlots`: the key set of the forward table. -/
def connectedSlotsOf (tf : FTable) : List Nat :=
  (tf.map (fun kv => kv.1)).dedup

/-- `SlotProvider::getConnectedSignals`: every emitter occurring in the
inverse table. -/
def connectedSignalsOf (ti : ITable) : List Nat :=
  ((ti.map (fun kv => kv.2)).flatten).dedup

/-- `Signal::connectionExists(slotProvider, slot)`. -/
def connectionExists (tf : FTable) (r f : Nat) : Bool :=
  (lookupD tf r).any (fun p => p.1 = f)

/-- Global dispatch state: the forward table of every signal endpoint and the
inverse table of every slot endpoint (absent endpoint ≡ empty tables). -/
structure DState where
  fwd : Nat → FTable
  inv : Nat → ITable

/-- The state with no connections. -/
def emptyD : DState := { fwd := fun _ => [], inv := fun _ => [] }

/-- Update one endpoint's table. -/
def pupd {α : Type} (m : Nat → α) (k : Nat) (g : α → α) : Nat → α :=
  fun x => if x = k then g (m x) else m x

/-- `Signal::registerSlot(context, f, connectionType)` on emitter `e`:
under the global mutex, return unchanged if the `(receiver, slot)` connection
exists, else append the row (capturing the connection type) to the emitter's
forward table and the emitter to the receiver's inverse table
(`appendConnection` + `registerConnection`). -/
def registerSlot (s : DState) (e r f : Nat) (m : CType) : DState :=
  if connectionExists (s.fwd e) r f then s
  else
    { fwd := pupd s.fwd e (fun tf => apush tf r (f, m)),
      inv := pupd s.inv r (fun ti => apush ti f e) }

/-- The static `SlotProvider::disconnect(slot, signalProvider, slotProvider)`:
nullable arguments are `Option`s; both endpoints `none` returns at once with
no change; otherwise the matching local removals run on the named endpoint(s),
the wildcard side ranging over `getConnectedSignals` / `getConnectedSlots`. -/
def disconnect (slot : Option Nat) (sig : Option Nat) (recv : Option Nat)
    (s : DState) : DState :=
  match sig, recv with
  | none, none => s
  | some e, some r =>
    { fwd := pupd s.fwd e (dLIS slot (some r)),
      inv := pupd s.inv r (dLISP slot (some e)) }
  | none, some r =>
    let conn := connectedSignalsOf (s.inv r)
    { fwd := fun e => if e ∈ conn then dLIS slot (some r) (s.fwd e) else s.fwd e,
      inv := pupd s.inv r (dLISP slot none) }
  | some e, none =>
    let conn := connectedSlotsOf (s.fwd e)
    { fwd := pupd s.fwd e (dLIS slot none),
      inv := fun r => if r ∈ conn then dLISP slot (some e) (s.inv r) else s.inv r }

/-- `SlotProvider::~SlotProvider()`: `disconnect(nullptr, nullptr, this)`. -/
def slotProviderDtor (r : Nat) (s : DState) : DState :=
  disconnect none none (some r) s

/-- `Signal::~Signal()`: `disconnect(nullptr, this, nullptr)`, followed by the
base-class `~SlotProvider()` (a `Signal` is also a `SlotProvider`). -/
def signalDtor (e : Nat) (s : DState) : DState :=
  slotProviderDtor e (disconnect none (some e) none s)

/-- Number of forward rows of emitter `e` for receiver `r` and slot `f`. -/
def rowCount (s : DState) (e r f : Nat) : Nat :=
  ((lookupD (s.fwd e) r).filter (fun p => p.1 = f)).length

/-- Number of occurrences of emitter `e` in receiver `r`'s inverse entry for
slot `f`. -/
def occCount (s : DState) (r f e : Nat) : Nat :=
  (lookupD (s.inv r) f).count e

/-- Key uniqueness of an association list (the `unordered_map` contract). -/
def keysUnique {α : Type} (l : List (Nat × α)) : Prop :=
  (l.map (fun kv => kv.1)).Nodup

/-- Well-formedness of a dispatch state: unique keys in every table, at most
one row per `(emitter, receiver, slot)` (duplicate registrations are no-ops),
and mutual consistency of forward and inverse tables. -/
def DInv (s : DState) : Prop :=
  (∀ x, keysUnique (s.fwd x) ∧ keysUnique (s.inv x)) ∧
  (∀ e r f, rowCount s e r f ≤ 1) ∧
  (∀ e r f, rowCount s e r f = occCount s r f e)

/-- The operations that mutate dispatch state. -/
inductive DOp where
  | reg (e r f : Nat) (m : CType)
  | disc (slot : Option Nat) (sig : Option Nat) (recv : Option Nat)

/-- Apply one dispatch-layer operation. -/
def applyDOp (s : DState) : DOp → DState
  | DOp.reg e r f m => registerSlot s e r f m
  | DOp.disc slot sig recv => disconnect slot sig recv s

/-- Apply a sequence of dispatch-layer operations. -/
def runDOps (ops : List DOp) : DState :=
  ops.foldl applyDOp emptyD

/-- Dispatch states reachable from the empty state (destructors are
`disconnect` instances). -/
def DReachable (s : DState) : Prop :=
  ∃ ops : List DOp, s = runDOps ops

/-- The `(receiver, slot, mode)` targets one emission of `e`'s signal invokes
(`Signal::operator()` walks the forward table and calls each stored invoker). -/
def emitTargets (s : DState) (e : Nat) : List (Nat × Row) :=
  ((s.fwd e).map (fun kv => kv.2.map (fun row => (kv.1, row)))).flatten

/-- The two operations of the uniqueness / net-parity property acting on
single connections: `registerSlot` (with any mode) and the fully-specified
`disconnect(slot, signal, receiver)`. -/
inductive PairOp where
  | reg (e r f : Nat) (m : CType)
  | disc (e r f : Nat)

/-- Apply one connection operation. -/
def applyPairOp (s : DState) : PairOp → DState
  | PairOp.reg e r f m => registerSlot s e r f m
  | PairOp.disc e r f => disconnect (some f) (some e) (some r) s

/-- Run a sequence of connection operations from the empty dispatch state. -/
def runPair (ops : List PairOp) : DState :=
  ops.foldl applyPairOp emptyD

/-- Does an operation address the connection `(e, r, f)`? -/
def touchesPair (e r f : Nat) : PairOp → Bool
  | PairOp.reg e2 r2 f2 _ => e2 == e && r2 == r && f2 == f
  | PairOp.disc e2 r2 f2 => e2 == e && r2 == r && f2 == f

/-- Is an operation a registration? -/
def isRegOp : PairOp → Bool
  | PairOp.reg _ _ _ _ => true
  | PairOp.disc _ _ _ => false

/-- Whether the connection `(e, r, f)` is live after a sequence of operations:
the last operation addressing it (if any) was a registration. -/
def liveAfter (ops : List PairOp) (e r f : Nat) : Bool :=
  ops.foldl (fun b op => if touchesPair e r f op then isRegOp op else b) false

/-! ## `invokeInContext` (Magic.h, lines 30-98)

The function chooses between two lambdas: a reference-capturing one when the
call is synchronous for the caller (`Qt::DirectConnection`,
`Qt::BlockingQueuedConnection`, or `Qt::AutoConnection` with the context on the
current thread), and a copy-capturing one otherwise; either is handed to
`QMetaObject::invokeMethod` with the given connection type.  There is no other
branch: in particular no same-thread test for `Qt::BlockingQueuedConnection`
and no error path. -/

/-- Which lambda `invokeInContext` builds. -/
inductive InvokePath where
  | byReference
  | byCopy
deriving DecidableEq, Repr

/-- Error kinds the specification expects the dispatch layer to surface. -/
inductive DispatchError where
  | invalidArgument
  | deadlockRisk
deriving DecidableEq, Repr

/-- The branch `invokeInContext` takes, as a function of the connection type
and of whether `QThread::currentThread() == context->thread()`. -/
def invokeInContextPath (ct : CType) (sameThread : Bool) : InvokePath :=
  if ct = CType.direct ∨ ct = CType.blockingQueued ∨ (ct = CType.auto ∧ sameThread) then
    InvokePath.byReference
  else
    InvokePath.byCopy

/-- The call-site outcome of `invokeInContext`: the source is a total function
with no rejection path, so every input maps to `Except.ok` of the chosen
branch.  (`Except` makes the absence of the error surface the specification
expects expressible.) -/
def invokeOutcome (ct : CType) (sameThread : Bool) : Except DispatchError InvokePath :=
  Except.ok (invokeInContextPath ct sameThread)

/-- The call-site outcome of the static `SlotProvider::disconnect`: the source
returns `void` and its both-endpoints-null branch is a bare `return;`, so every
input maps to `Except.ok` of the new state. -/
def disconnectOutcome (slot : Option Nat) (sig : Option Nat) (recv : Option Nat)
    (s : DState) : Except DispatchError DState :=
  Except.ok (disconnect slot sig recv s)

/-! ## Sender stacks: `SlotProvider::callSlot` / `SlotProvider::signalSender`

`SlotProvider::signalSenders` maps an executor thread (`this->thread()`) to a
LIFO `std::deque<SignalProvider*>`; threads and emitters are `Nat` ids.
`callSlot` pushes the emitting signal on the back of the deque for the
receiver's thread, invokes the callable, and pops the back; `signalSender`
returns the back of the deque for the receiver's thread, or null when the
entry is absent or empty. -/

/-- The `signalSenders` map of one `SlotProvider` (absent key ≡ empty deque). -/
abbrev SenderMap := Nat → List Nat

/-- The map of a freshly constructed `SlotProvider`. -/
def emptySenders : SenderMap := fun _ => []

/-- The push half of `callSlot`: `signalSenders[thread].emplace_back(sender)`
(creating a singleton deque when the key is absent). -/
def pushSender (m : SenderMap) (t sender : Nat) : SenderMap :=
  fun t' => if t' = t then m t ++ [sender] else m t'

/-- The pop half of `callSlot`: `signalSenders[thread].pop_back()`. -/
def popSender (m : SenderMap) (t : Nat) : SenderMap :=
  fun t' => if t' = t then (m t).dropLast else m t'

/-- `SlotProvider::signalSender()`: the back of the executing thread's deque,
`none` (null) when the entry is absent or empty. -/
def signalSender (m : SenderMap) (t : Nat) : Option Nat :=
  (m t).getLast?

/-- A tree of (possibly nested, possibly reentrant) slot invocations:
`call t sender body next` is one `callSlot` on executor thread `t` triggered
by `sender`, whose callable performs the invocations of `body`, followed by
the invocations of `next`. -/
inductive CallTree where
  | done
  | call (t sender : Nat) (body next : CallTree)

/-- Execute a tree of `callSlot` invocations on a sender map, recording at the
start of every callable what `signalSender()` returns there against the
emitter that triggered it. -/
def runCalls : CallTree → SenderMap → SenderMap × List (Option Nat × Nat)
  | CallTree.done, m => (m, [])
  | CallTree.call t sender body next, m =>
    let m1 := pushSender m t sender
    let obs := (signalSender m1 t, sender)
    let rb := runCalls body m1
    let m2 := popSender rb.1 t
    let rn := runCalls next m2
    (rn.1, obs :: (rb.2 ++ rn.2))

/-! ## `Worker::setupConnections` and `Processor::setupConnections`

Pointer parameters are `Option Nat` (`none` = `nullptr`); the `workerUUID`
parameter is a `Nat` compared against `0` as in the source.  The stored
fields mirror the private members of `Worker<T,R>` / `Processor<T,R>`. -/

/-- The connection-related fields of `Worker<T,R>`. -/
structure WorkerFields where
  workerUUID : Nat
  workerControllerContext : Option Nat
  workerController : Option Nat
  processorContext : Option Nat
  processor : Option Nat
  workDone : Option Nat
  resultCalculated : Option Nat
deriving DecidableEq, Repr

/-- `Worker::setupConnections`: the two context pointers are assigned
unconditionally; `workerUUID` is replaced only when the argument is nonzero;
the remaining pointers are replaced only when the argument is non-null. -/
def workerSetupConnections (w : WorkerFields)
    (newWorkerUUID : Nat) (newWorkerControllerContext : Option Nat)
    (newWorkerController : Option Nat) (newProcessorContext : Option Nat)
    (newProcessor : Option Nat) (newWorkDone : Option Nat)
    (newResultCalculated : Option Nat) : WorkerFields :=
  { workerControllerContext := newWorkerControllerContext,
    processorContext := newProcessorContext,
    workerUUID := if newWorkerUUID ≠ 0 then newWorkerUUID else w.workerUUID,
    workerController := if newWorkerController.isSome then newWorkerController else w.workerController,
    processor := if newProcessor.isSome then newProcessor else w.processor,
    workDone := if newWorkDone.isSome then newWorkDone else w.workDone,
    resultCalculated := if newResultCalculated.isSome then newResultCalculated else w.resultCalculated }

/-- The connection-related fields of `Processor<T,R>`. -/
structure ProcessorFields where
  workerControllerContext : Option Nat
  workerController : Option Nat
  setNumberOfThreadsPtr : Option Nat
  clearQueuePtr : Option Nat
  extendQueuePtr : Option Nat
deriving DecidableEq, Repr

/-- `Processor::setupConnections`: the context pointer is assigned
unconditionally; the remaining pointers are replaced only when the argument is
non-null. -/
def processorSetupConnections (p : ProcessorFields)
    (newWorkerControllerContext : Option Nat) (newWorkerController : Option Nat)
    (newSetNumberOfThreadsPtr : Option Nat) (newClearQueuePtr : Option Nat)
    (newExtendQueuePtr : Option Nat) : ProcessorFields :=
  { workerControllerContext := newWorkerControllerContext,
    workerController := if newWorkerController.isSome then newWorkerController else p.workerController,
    setNumberOfThreadsPtr := if newSetNumberOfThreadsPtr.isSome then newSetNumberOfThreadsPtr else p.setNumberOfThreadsPtr,
    clearQueuePtr := if newClearQueuePtr.isSome then newClearQueuePtr else p.clearQueuePtr,
    extendQueuePtr := if newExtendQueuePtr.isSome then newExtendQueuePtr else p.extendQueuePtr }

/-! ## Association-list lemmas -/

theorem alookup_nil {α : Type} (k : Nat) : alookup ([] : List (Nat × α)) k = none := rfl

theorem alookup_mapVals {α : Type} (g : Nat → α → α) (l : List (Nat × α)) (k : Nat) :
    alookup (mapVals g l) k = (alookup l k).map (g k) := by
  induction l with
  | nil => rfl
  | cons kv t ih =>
    by_cases h : kv.1 = k
    · simp [mapVals, alookup, h]
    · simp [mapVals, alookup, h] at ih ⊢
      exact ih

theorem alookup_akeyErase {α : Type} (l : List (Nat × α)) (r k : Nat) :
    alookup (akeyErase l r) k = if k = r then none else alookup l k := by
  induction l with
  | nil => simp [akeyErase, alookup]
  | cons kv t ih =>
    unfold akeyErase at ih ⊢
    by_cases hkr : kv.1 = r
    · rw [List.filter_cons_of_neg (by simp [hkr])]
      rw [ih]
      by_cases hk : k = r
      · simp [hk]
      · have hne : kv.1 ≠ k := by rw [hkr]; exact fun h => hk h.symm
        simp [alookup, hne, hk]
    · rw [List.filter_cons_of_pos (by simp [hkr])]
      by_cases hkv : kv.1 = k
      · have hk : ¬ k = r := by rw [← hkv]; exact hkr
        simp [alookup, hkv, hk]
      · simp only [ne_eq, decide_not] at ih ⊢
        simp [alookup, hkv, ih]

theorem alookup_append_none {α : Type} {l₁ : List (Nat × α)} {k : Nat}
    (l₂ : List (Nat × α)) (h : alookup l₁ k = none) :
    alookup (l₁ ++ l₂) k = alookup l₂ k := by
  induction l₁ with
  | nil => simp
  | cons kv t ih =>
    by_cases hk : kv.1 = k
    · simp [alookup, hk] at h
    · simp [alookup, hk] at h ⊢
      exact ih h

theorem alookup_append_some {α : Type} {l₁ : List (Nat × α)} {k : Nat} {v : α}
    (l₂ : List (Nat × α)) (h : alookup l₁ k = some v) :
    alookup (l₁ ++ l₂) k = some v := by
  induction l₁ with
  | nil => simp [alookup] at h
  | cons kv t ih =>
    by_cases hk : kv.1 = k
    · simp [alookup, hk] at h ⊢
      exact h
    · simp [alookup, hk] at h ⊢
      exact ih h

theorem alookup_eq_none_iff {α : Type} (l : List (Nat × α)) (k : Nat) :
    alookup l k = none ↔ k ∉ l.map (fun kv => kv.1) := by
  induction l with
  | nil => simp [alookup]
  | cons kv t ih =>
    by_cases h : kv.1 = k
    · simp [alookup, h]
    · have hstep : alookup (kv :: t) k = alookup t k := by simp [alookup, h]
      rw [hstep, ih, List.map_cons, List.mem_cons]
      constructor
      · intro hn hh
        rcases hh with h1 | h1
        · exact h h1.symm
        · exact hn h1
      · intro hn h1
        exact hn (Or.inr h1)

theorem alookup_mem {α : Type} {l : List (Nat × α)} {k : Nat} {v : α}
    (h : alookup l k = some v) : (k, v) ∈ l := by
  induction l with
  | nil => simp [alookup] at h
  | cons kv t ih =>
    by_cases hk : kv.1 = k
    · simp [alookup, hk] at h
      subst h
      rw [← hk]
      exact List.mem_cons_self kv t
    · simp [alookup, hk] at h
      exact List.mem_cons_of_mem _ (ih h)

theorem alookup_of_mem_unique {α : Type} {l : List (Nat × α)} {k : Nat} {v : α}
    (hu : keysUnique l) (hm : (k, v) ∈ l) : alookup l k = some v := by
  induction l with
  | nil => simp at hm
  | cons kv t ih =>
    rcases List.mem_cons.mp hm with h | h
    · subst h
      simp [alookup]
    · have hk : kv.1 ≠ k := by
        intro he
        have : kv.1 ∉ t.map (fun kv => kv.1) := by
          simpa [keysUnique] using (List.nodup_cons.mp hu).1
        exact this (he ▸ List.mem_map_of_mem (fun kv => kv.1) h)
      have ht : keysUnique t := by
        simpa [keysUnique] using (List.nodup_cons.mp hu).2
      simp [alookup, hk]
      exact ih ht h

theorem lookupD_mapVals {β : Type} (g : Nat → List β → List β) (l : List (Nat × List β))
    (k : Nat) (hg : g k [] = []) : lookupD (mapVals g l) k = g k (lookupD l k) := by
  unfold lookupD
  rw [alookup_mapVals]
  cases alookup l k with
  | none => simpa using hg.symm
  | some v => simp

theorem lookupD_akeyErase {β : Type} (l : List (Nat × List β)) (r k : Nat) :
    lookupD (akeyErase l r) k = if k = r then [] else lookupD l k := by
  unfold lookupD
  rw [alookup_akeyErase]
  by_cases h : k = r <;> simp [h]

theorem lookupD_mapVals_present {β : Type} (g : Nat → List β → List β)
    (l : List (Nat × List β)) (k : Nat) (h : acontains l k = true) :
    lookupD (mapVals g l) k = g k (lookupD l k) := by
  unfold acontains at h
  unfold lookupD
  rw [alookup_mapVals]
  cases hl : alookup l k with
  | none => rw [hl] at h; simp at h
  | some v => simp

theorem acontains_false_alookup {α : Type} {l : List (Nat × α)} {k : Nat}
    (h : ¬ acontains l k = true) : alookup l k = none := by
  unfold acontains at h
  cases hl : alookup l k with
  | none => rfl
  | some v => rw [hl] at h; simp at h

theorem lookupD_apush_self {β : Type} (l : List (Nat × List β)) (k : Nat) (b : β) :
    lookupD (apush l k b) k = lookupD l k ++ [b] := by
  unfold apush
  by_cases h : acontains l k
  · rw [if_pos h]
    rw [lookupD_mapVals_present _ _ _ h]
    simp
  · rw [if_neg h]
    have hn := acontains_false_alookup h
    unfold lookupD
    rw [alookup_append_none _ hn, hn]
    simp [alookup]

theorem lookupD_apush_ne {β : Type} (l : List (Nat × List β)) (k k' : Nat) (b : β)
    (h : k' ≠ k) : lookupD (apush l k b) k' = lookupD l k' := by
  unfold apush
  by_cases hc : acontains l k
  · rw [if_pos hc]
    rw [lookupD_mapVals _ _ _ (by simp [h])]
    simp [h]
  · rw [if_neg hc]
    unfold lookupD
    cases hl : alookup l k' with
    | none =>
      rw [alookup_append_none _ hl]
      have hne2 : ¬ (k = k') := fun hh => h hh.symm
      simp [alookup, hne2]
    | some v => rw [alookup_append_some _ hl]

theorem keys_mapVals {α : Type} (g : Nat → α → α) (l : List (Nat × α)) :
    (mapVals g l).map (fun kv => kv.1) = l.map (fun kv => kv.1) := by
  induction l with
  | nil => rfl
  | cons kv t _ => simp [mapVals]

theorem keysUnique_mapVals {α : Type} (g : Nat → α → α) {l : List (Nat × α)}
    (h : keysUnique l) : keysUnique (mapVals g l) := by
  unfold keysUnique
  rw [keys_mapVals]
  exact h

theorem keysUnique_akeyErase {α : Type} {l : List (Nat × α)} (r : Nat)
    (h : keysUnique l) : keysUnique (akeyErase l r) := by
  unfold keysUnique at h ⊢
  exact (List.Sublist.map _ (List.filter_sublist l)).nodup h

theorem keysUnique_apush {β : Type} {l : List (Nat × List β)} (k : Nat) (b : β)
    (h : keysUnique l) : keysUnique (apush l k b) := by
  unfold apush
  by_cases hc : acontains l k
  · rw [if_pos hc]
    exact keysUnique_mapVals _ h
  · rw [if_neg hc]
    unfold keysUnique at h ⊢
    rw [List.map_append]
    simp only [List.map_cons, List.map_nil]
    rw [List.nodup_append]
    refine ⟨h, List.nodup_singleton _, ?_⟩
    intro x hx hx2
    simp at hx2
    have hn := acontains_false_alookup hc
    exact ((alookup_eq_none_iff l k).mp hn) (hx2 ▸ hx)

theorem connectionExists_false_iff (tf : FTable) (r f : Nat) :
    connectionExists tf r f = false ↔
      (lookupD tf r).filter (fun p => p.1 = f) = [] := by
  unfold connectionExists
  rw [List.any_eq_false, List.filter_eq_nil_iff]

theorem connectionExists_true_iff (tf : FTable) (r f : Nat) :
    connectionExists tf r f = true ↔
      (lookupD tf r).filter (fun p => p.1 = f) ≠ [] := by
  rw [Ne, ← connectionExists_false_iff]
  cases connectionExists tf r f <;> simp

theorem registerSlot_noop {s : DState} {e r f : Nat} {m : CType}
    (h : connectionExists (s.fwd e) r f = true) : registerSlot s e r f m = s := by
  unfold registerSlot
  simp [h]

theorem registerSlot_push_fwd {s : DState} {e r f : Nat} {m : CType}
    (h : connectionExists (s.fwd e) r f = false) :
    lookupD ((registerSlot s e r f m).fwd e) r = lookupD (s.fwd e) r ++ [(f, m)] := by
  unfold registerSlot
  simp only [h, Bool.false_eq_true, if_false]
  simp only [pupd, if_pos rfl]
  exact lookupD_apush_self _ _ _

theorem registerSlot_push_inv {s : DState} {e r f : Nat} {m : CType}
    (h : connectionExists (s.fwd e) r f = false) :
    lookupD ((registerSlot s e r f m).inv r) f = lookupD (s.inv r) f ++ [e] := by
  unfold registerSlot
  simp only [h, Bool.false_eq_true, if_false]
  simp only [pupd, if_pos rfl]
  exact lookupD_apush_self _ _ _

/-! ## Claim theorems -/

/-- Claim C6 (counterexample): `disconnect` called with both the
`SignalProvider` and the `SlotProvider` arguments null does NOT report an
`InvalidArgument` failure — even in a state holding a live connection matching
the slot argument, the call returns `Except.ok` with the state unchanged
(silently accepted, no effect), contradicting the claim. -/
theorem disconnect_both_null_not_rejected :
    disconnectOutcome (some 2) none none (registerSlot emptyD 0 1 2 CType.queued) ≠
      Except.error DispatchError.invalidArgument ∧
    disconnect (some 2) none none (registerSlot emptyD 0 1 2 CType.queued) =
      registerSlot emptyD 0 1 2 CType.queued ∧
    rowCount (registerSlot emptyD 0 1 2 CType.queued) 0 1 2 = 1 := by
  refine ⟨fun hcontra => Except.noConfusion hcontra, rfl, by decide⟩

/-- Claim C6 (amended): for every slot argument and state, `disconnect` with
both endpoint arguments null returns immediately: no error is reported and the
connection state is unchanged (the guard is a bare `return;`). -/
theorem disconnect_both_null_silent_noop :
    ∀ (slot : Option Nat) (s : DState), disconnectOutcome slot none none s = Except.ok s :=
  fun _ _ => rfl

/-- Claim C7 (counterexample): a `Qt::BlockingQueuedConnection` invocation
whose context lives on the calling thread is NOT rejected with a
`DeadlockRisk` error at the call site; `invokeInContext` has no such check. -/
theorem invoke_blockingQueued_same_thread_not_rejected :
    invokeOutcome CType.blockingQueued true ≠
      Except.error DispatchError.deadlockRisk :=
  fun hcontra => Except.noConfusion hcontra

/-- Claim C7 (amended): `invokeInContext` never reports an error for any
connection type or thread relation; a `BlockingQueuedConnection` aimed at the
calling thread is forwarded unconditionally through the reference-capturing
branch to `QMetaObject::invokeMethod` (the caller then blocks; no rejection is
surfaced at the call site). -/
theorem invokeInContext_no_deadlock_detection :
    (∀ (ct : CType) (sameThread : Bool),
      invokeOutcome ct sameThread = Except.ok (invokeInContextPath ct sameThread)) ∧
    invokeInContextPath CType.blockingQueued true = InvokePath.byReference :=
  ⟨fun _ _ => rfl, by decide⟩

/-- Claim C9 (counterexample): a `setupConnections` call with all-default
(null) arguments does NOT leave every stored field unchanged: both
`Worker::setupConnections` and `Processor::setupConnections` assign the
context-pointer fields unconditionally, so the call clears them. -/
theorem setupConnections_all_null_clears_contexts :
    workerSetupConnections ⟨3, some 5, some 6, some 7, some 8, some 9, some 10⟩
      0 none none none none none none ≠
      (⟨3, some 5, some 6, some 7, some 8, some 9, some 10⟩ : WorkerFields) ∧
    processorSetupConnections ⟨some 5, some 6, some 7, some 8, some 9⟩
      none none none none none ≠
      (⟨some 5, some 6, some 7, some 8, some 9⟩ : ProcessorFields) := by
  refine ⟨by decide, by decide⟩

/-- Claim C9 (amended): in `Worker::setupConnections` the fields
`workerControllerContext` and `processorContext`, and in
`Processor::setupConnections` the field `workerControllerContext`, are
assigned unconditionally (so a null argument clears them); every other field
is left unchanged by a null (or `0` for `workerUUID`) argument and replaced by
a non-null (nonzero) argument. -/
theorem setupConnections_partial_update_spec :
    (∀ (w : WorkerFields) (u : Nat) (cc wc pc pr wd rc : Option Nat) (w' : WorkerFields),
      w' = workerSetupConnections w u cc wc pc pr wd rc →
      (w'.workerControllerContext = cc ∧ w'.processorContext = pc ∧
       (u = 0 → w'.workerUUID = w.workerUUID) ∧ (u ≠ 0 → w'.workerUUID = u) ∧
       (wc = none → w'.workerController = w.workerController) ∧
       (wc ≠ none → w'.workerController = wc) ∧
       (pr = none → w'.processor = w.processor) ∧ (pr ≠ none → w'.processor = pr) ∧
       (wd = none → w'.workDone = w.workDone) ∧ (wd ≠ none → w'.workDone = wd) ∧
       (rc = none → w'.resultCalculated = w.resultCalculated) ∧
       (rc ≠ none → w'.resultCalculated = rc))) ∧
    (∀ (p : ProcessorFields) (cc wc st cl ex : Option Nat) (p' : ProcessorFields),
      p' = processorSetupConnections p cc wc st cl ex →
      (p'.workerControllerContext = cc ∧
       (wc = none → p'.workerController = p.workerController) ∧
       (wc ≠ none → p'.workerController = wc) ∧
       (st = none → p'.setNumberOfThreadsPtr = p.setNumberOfThreadsPtr) ∧
       (st ≠ none → p'.setNumberOfThreadsPtr = st) ∧
       (cl = none → p'.clearQueuePtr = p.clearQueuePtr) ∧
       (cl ≠ none → p'.clearQueuePtr = cl) ∧
       (ex = none → p'.extendQueuePtr = p.extendQueuePtr) ∧
       (ex ≠ none → p'.extendQueuePtr = ex))) := by
  constructor
  · intro w u cc wc pc pr wd rc w' hw
    subst hw
    refine ⟨rfl, rfl, ?_, ?_, ?_, ?_, ?_, ?_, ?_, ?_, ?_, ?_⟩ <;>
      intro h <;> simp [workerSetupConnections, h]
  · intro p cc wc st cl ex p' hp
    subst hp
    refine ⟨rfl, ?_, ?_, ?_, ?_, ?_, ?_, ?_, ?_⟩ <;>
      intro h <;> simp [processorSetupConnections, h]

/-- Witness for the amended claim C9 at a concrete input: a call with
all-default arguments preserves `workerUUID`. -/
theorem setupConnections_partial_update_spec_witness :
    (workerSetupConnections ⟨1, none, none, none, none, none, none⟩
      0 none none none none none none).workerUUID =
      (⟨1, none, none, none, none, none, none⟩ : WorkerFields).workerUUID :=
  (setupConnections_partial_update_spec.1
    ⟨1, none, none, none, none, none, none⟩ 0 none none none none none none _ rfl).2.2.1 rfl

/-- Claim C10: the connection identity checked by `registerSlot` is only the
pair (receiver, slot cookie) — the connection type is not compared.  From a
state with no `(r, f)` row on emitter `e`, a first `registerSlot` with mode
`m₁` followed by a second with any mode `m₂` is a no-op: the state is the one
after the first registration, and the single live row keeps mode `m₁`. -/
theorem connection_identity_ignores_mode (s : DState) (e r f : Nat) (m₁ m₂ : CType)
    (h : connectionExists (s.fwd e) r f = false) :
    registerSlot (registerSlot s e r f m₁) e r f m₂ = registerSlot s e r f m₁ ∧
    (lookupD ((registerSlot s e r f m₁).fwd e) r).filter (fun p => p.1 = f) =
      [(f, m₁)] := by
  have hfil : (lookupD (s.fwd e) r).filter (fun p => p.1 = f) = [] :=
    (connectionExists_false_iff _ _ _).mp h
  have hfwd := registerSlot_push_fwd (m := m₁) h
  have hfil1 : (lookupD ((registerSlot s e r f m₁).fwd e) r).filter
      (fun p => p.1 = f) = [(f, m₁)] := by
    rw [hfwd, List.filter_append, hfil]
    simp
  refine ⟨?_, hfil1⟩
  have hex : connectionExists ((registerSlot s e r f m₁).fwd e) r f = true := by
    rw [connectionExists_true_iff, hfil1]
    simp
  exact registerSlot_noop hex

/-- Witness for claim C10 at a concrete input. -/
theorem connection_identity_ignores_mode_witness :
    connectionExists (emptyD.fwd 0) 1 2 = false ∧
    registerSlot (registerSlot emptyD 0 1 2 CType.direct) 0 1 2 CType.queued =
      registerSlot emptyD 0 1 2 CType.direct :=
  ⟨by decide, (connection_identity_ignores_mode emptyD 0 1 2 CType.direct CType.queued
    (by decide)).1⟩

theorem popSender_pushSender (m : SenderMap) (t s : Nat) :
    popSender (pushSender m t s) t = m := by
  funext t'
  by_cases h : t' = t
  · subst h
    simp [popSender, pushSender]
  · simp [popSender, pushSender, h]

theorem signalSender_pushSender (m : SenderMap) (t s : Nat) :
    signalSender (pushSender m t s) t = some s := by
  simp [signalSender, pushSender]

theorem runCalls_fst (tree : CallTree) : ∀ m : SenderMap, (runCalls tree m).1 = m := by
  induction tree with
  | done => intro m; rfl
  | call t s body next ihb ihn =>
    intro m
    simp only [runCalls]
    rw [ihb, popSender_pushSender]
    exact ihn _

theorem runCalls_obs (tree : CallTree) :
    ∀ (m : SenderMap) (ob : Option Nat × Nat),
      ob ∈ (runCalls tree m).2 → ob.1 = some ob.2 := by
  induction tree with
  | done => intro m ob h; simp [runCalls] at h
  | call t s body next ihb ihn =>
    intro m ob h
    simp only [runCalls] at h
    rcases List.mem_cons.mp h with h1 | h1
    · subst h1
      exact signalSender_pushSender m t s
    · rcases List.mem_append.mp h1 with h2 | h2
      · exact ihb _ _ h2
      · exact ihn _ _ h2

/-- Claim C8: `callSlot` pushes the emitting signal onto the receiver's
per-thread sender stack before the callable runs and pops it afterwards,
so `signalSender()` at the beginning of every (possibly nested) slot body
returns the emitter that triggered it; after any balanced tree of nested
invocations the sender map is restored; and `signalSender()` returns null
when the executing thread's stack is absent or empty. -/
theorem sender_stack_tracking :
    (∀ t : Nat, signalSender emptySenders t = none) ∧
    (∀ (m : SenderMap) (t s : Nat), signalSender (pushSender m t s) t = some s) ∧
    (∀ (tree : CallTree) (m : SenderMap),
      (runCalls tree m).1 = m ∧
      (∀ ob ∈ (runCalls tree m).2, ob.1 = some ob.2)) :=
  ⟨fun _ => rfl, signalSender_pushSender,
   fun tree m => ⟨runCalls_fst tree m, fun ob h => runCalls_obs tree m ob h⟩⟩

/-- Witness for claim C8 at a concrete input: one invocation on thread `0`
triggered by emitter `7`. -/
theorem sender_stack_tracking_witness :
    (runCalls (CallTree.call 0 7 CallTree.done CallTree.done) emptySenders).1 =
      emptySenders ∧
    ((some 7, 7) : Option Nat × Nat).1 = some 7 :=
  ⟨(sender_stack_tracking.2.2 (CallTree.call 0 7 CallTree.done CallTree.done)
      emptySenders).1,
   (sender_stack_tracking.2.2 (CallTree.call 0 7 CallTree.done CallTree.done)
      emptySenders).2 (some 7, 7) (by decide)⟩

theorem szMod_value : szMod = 18446744073709551616 := by norm_num [szMod]

/-- Claim C1: a ready notification `(workerID, workerUUID)` is accepted by
`workerFinished` — index `workerID - 1` (in `std::size_t` arithmetic) is
inserted into the ready set and the task-assignment loop runs — if and only if
`workerID - 1 < len(threads)` and the instance id stored at that index equals
`workerUUID`; any other notification leaves the controller state unchanged,
so a notification from a worker retired by a resize never marks a current
worker ready. -/
theorem workerFinished_instance_check (s : WCState) (wid uuid : Nat)
    (hlen : s.threads.length < szMod) (hwid : wid < szMod) :
    ((1 ≤ wid ∧ wid - 1 < s.threads.length ∧
        uuid = (s.threads.getD (wid - 1) default).uuid) →
      workerFinished s wid uuid = checkTasksState
        { s with
          threads := s.threads.set (wid - 1)
            { s.threads.getD (wid - 1) default with busy := false },
          workersReady := insert (wid - 1) s.workersReady }) ∧
    (¬ (1 ≤ wid ∧ wid - 1 < s.threads.length ∧
        uuid = (s.threads.getD (wid - 1) default).uuid) →
      workerFinished s wid uuid = s) := by
  have hsz := szMod_value
  by_cases hw : 1 ≤ wid
  · have hidx : (wid + (szMod - 1)) % szMod = wid - 1 := by
      rw [hsz]
      rw [hsz] at hwid
      omega
    constructor
    · rintro ⟨h1, h2, h3⟩
      simp only [workerFinished]
      rw [hidx, if_pos ⟨h2, h3⟩]
    · intro hneg
      have hne : ¬ (wid - 1 < s.threads.length ∧
          uuid = (s.threads.getD (wid - 1) default).uuid) :=
        fun hpair => hneg ⟨hw, hpair.1, hpair.2⟩
      simp only [workerFinished]
      rw [hidx, if_neg hne]
  · have hw0 : wid = 0 := by omega
    subst hw0
    have hidx : (0 + (szMod - 1)) % szMod = szMod - 1 := by
      rw [hsz]
    constructor
    · rintro ⟨h1, _, _⟩
      omega
    · intro _
      simp only [workerFinished]
      rw [hidx, if_neg]
      rintro ⟨hlt, _⟩
      rw [hsz] at hlt hlen
      omega

/-- Witness for claim C1 at a concrete input: a one-worker controller accepts
the notification `(1, 5)` matching the stored instance id. -/
theorem workerFinished_instance_check_witness :
    workerFinished ⟨[⟨5, true⟩], [], ∅, false, 1⟩ 1 5 =
      checkTasksState { (⟨[⟨5, true⟩], [], ∅, false, 1⟩ : WCState) with
        threads := List.set [⟨5, true⟩] 0
          { List.getD [(⟨5, true⟩ : WorkerRec)] 0 default with busy := false },
        workersReady := insert 0 (∅ : Finset Nat) } :=
  (workerFinished_instance_check ⟨[⟨5, true⟩], [], ∅, false, 1⟩ 1 5
    (by decide) (by decide)).1
    ⟨by decide, by decide, by decide⟩

theorem checkLoop_spec : ∀ (tasks : List Nat) (ready : Finset Nat) (ths : List WorkerRec),
    (checkLoop tasks ready ths).2.2.2.map (fun d => d.task) =
      tasks.take (min tasks.length ready.card) ∧
    (checkLoop tasks ready ths).2.2.1 = tasks.drop (min tasks.length ready.card) ∧
    (checkLoop tasks ready ths).2.2.2.length = min tasks.length ready.card ∧
    (∀ d ∈ (checkLoop tasks ready ths).2.2.2, d.mode = CType.queued ∧ d.idx ∈ ready) ∧
    (checkLoop tasks ready ths).2.1 ⊆ ready ∧
    (checkLoop tasks ready ths).2.1.card = ready.card - min tasks.length ready.card := by
  intro tasks
  induction tasks with
  | nil =>
    intro ready ths
    simp [checkLoop]
  | cons t rest ih =>
    intro ready ths
    by_cases h : ready.Nonempty
    · have hcard : 1 ≤ ready.card := Finset.Nonempty.card_pos h
      have hmem : ready.min' h ∈ ready := Finset.min'_mem ready h
      have hce : (ready.erase (ready.min' h)).card = ready.card - 1 :=
        Finset.card_erase_of_mem hmem
      obtain ⟨ha, hb, hc, hd, he, hf⟩ :=
        ih (ready.erase (ready.min' h))
          (ths.set (ready.min' h) { ths.getD (ready.min' h) default with busy := true })
      have hmin : min (t :: rest).length ready.card =
          min rest.length (ready.erase (ready.min' h)).card + 1 := by
        rw [hce, List.length_cons]
        omega
      simp only [checkLoop, dif_pos h]
      refine ⟨?_, ?_, ?_, ?_, ?_, ?_⟩
      · rw [hmin, List.take_succ_cons, List.map_cons, ha]
      · rw [hmin, List.drop_succ_cons, hb]
      · rw [hmin, List.length_cons, hc]
      · intro d hdm
        rcases List.mem_cons.mp hdm with h1 | h1
        · subst h1
          exact ⟨rfl, hmem⟩
        · obtain ⟨hm, hi⟩ := hd d h1
          exact ⟨hm, Finset.mem_of_mem_erase hi⟩
      · exact fun x hx => Finset.mem_of_mem_erase (he hx)
      · rw [hmin, hf, hce]
        omega
    · have hempty : ready = ∅ := Finset.not_nonempty_iff_eq_empty.mp h
      subst hempty
      simp [checkLoop]

/-- Claim C5: the assignment loop `checkTasks` dispatches while the queue and
the ready set are both non-empty, each iteration removing one ready index and
the front task and dispatching that task with `Qt::QueuedConnection`; exactly
`min(len(tasks), card(ready))` tasks are dispatched, in queue (FIFO) order,
and `extendQueue` appends the new tasks at the back preserving their order. -/
theorem checkTasks_fifo_dispatch :
    (∀ (tasks : List Nat) (ready : Finset Nat) (ths : List WorkerRec),
      (checkLoop tasks ready ths).2.2.2.map (fun d => d.task) =
        tasks.take (min tasks.length ready.card) ∧
      (checkLoop tasks ready ths).2.2.1 = tasks.drop (min tasks.length ready.card) ∧
      (checkLoop tasks ready ths).2.2.2.length = min tasks.length ready.card ∧
      (∀ d ∈ (checkLoop tasks ready ths).2.2.2, d.mode = CType.queued ∧ d.idx ∈ ready) ∧
      (checkLoop tasks ready ths).2.1 ⊆ ready ∧
      (checkLoop tasks ready ths).2.1.card = ready.card - min tasks.length ready.card) ∧
    (∀ (s : WCState) (l : List Nat), s.isInDestructor = false →
      extendQueue s l = checkTasksState { s with tasks := s.tasks ++ l }) := by
  refine ⟨checkLoop_spec, ?_⟩
  intro s l hd
  simp [extendQueue, hd]

/-- Witness for claim C5 at a concrete input. -/
theorem checkTasks_fifo_dispatch_witness :
    initWC.isInDestructor = false ∧
    extendQueue initWC [3] = checkTasksState { initWC with tasks := initWC.tasks ++ [3] } :=
  ⟨rfl, checkTasks_fifo_dispatch.2 initWC [3] rfl⟩

theorem getD_set_self_wr (l : List WorkerRec) (i : Nat) (a : WorkerRec)
    (h : i < l.length) : (l.set i a).getD i default = a := by
  simp [List.getD_eq_getElem?_getD, List.getElem?_set_self', h]

theorem getD_set_ne_wr (l : List WorkerRec) {i j : Nat} (a : WorkerRec)
    (h : i ≠ j) : (l.set i a).getD j default = l.getD j default := by
  simp [List.getD_eq_getElem?_getD, List.getElem?_set_ne h]

theorem getD_take_wr (l : List WorkerRec) {n j : Nat} (h : j < n) :
    (l.take n).getD j default = l.getD j default := by
  simp [List.getD_eq_getElem?_getD, List.getElem?_take, h]

theorem getD_append_left_wr (l₁ l₂ : List WorkerRec) {j : Nat} (h : j < l₁.length) :
    (l₁ ++ l₂).getD j default = l₁.getD j default := by
  simp [List.getD_eq_getElem?_getD, List.getElem?_append, h]

theorem getD_append_right_wr (l₁ l₂ : List WorkerRec) {j : Nat} (h : l₁.length ≤ j) :
    (l₁ ++ l₂).getD j default = l₂.getD (j - l₁.length) default := by
  simp [List.getD_eq_getElem?_getD, List.getElem?_append_right h]

theorem getD_map_range_wr (f : Nat → WorkerRec) {k j : Nat} (h : j < k) :
    ((List.range k).map f).getD j default = f j := by
  simp [List.getD_eq_getElem?_getD, List.getElem?_map, List.getElem?_range h]

theorem wcinv_init : WCInv initWC := by
  intro i
  simp [initWC]

theorem checkLoop_inv : ∀ (tasks : List Nat) (ready : Finset Nat) (ths : List WorkerRec),
    (∀ i, i ∈ ready ↔ (i < ths.length ∧ (ths.getD i default).busy = false)) →
    (∀ i, i ∈ (checkLoop tasks ready ths).2.1 ↔
      (i < (checkLoop tasks ready ths).1.length ∧
        ((checkLoop tasks ready ths).1.getD i default).busy = false)) := by
  intro tasks
  induction tasks with
  | nil =>
    intro ready ths hinv
    simpa [checkLoop] using hinv
  | cons t rest ih =>
    intro ready ths hinv
    by_cases h : ready.Nonempty
    · simp only [checkLoop, dif_pos h]
      apply ih
      intro j
      obtain ⟨hilen, hibusy⟩ := (hinv (ready.min' h)).mp (Finset.min'_mem ready h)
      constructor
      · intro hj
        have hji : j ≠ ready.min' h := Finset.ne_of_mem_erase hj
        obtain ⟨hjlen, hjbusy⟩ := (hinv j).mp (Finset.mem_of_mem_erase hj)
        refine ⟨by simpa using hjlen, ?_⟩
        rw [getD_set_ne_wr _ _ (fun hh => hji hh.symm)]
        exact hjbusy
      · rintro ⟨hjlen, hjbusy⟩
        have hjlen2 : j < ths.length := by simpa using hjlen
        by_cases hji : j = ready.min' h
        · subst hji
          rw [getD_set_self_wr _ _ _ hjlen2] at hjbusy
          simp at hjbusy
        · refine Finset.mem_erase.mpr ⟨hji, (hinv j).mpr ⟨hjlen2, ?_⟩⟩
          rw [getD_set_ne_wr _ _ (fun hh => hji hh.symm)] at hjbusy
          exact hjbusy
    · simp only [checkLoop, dif_neg h]
      exact hinv

theorem wcinv_checkTasksState (s : WCState) (h : WCInv s) : WCInv (checkTasksState s) := by
  intro i
  have := checkLoop_inv s.tasks s.workersReady s.threads h i
  simpa [checkTasksState] using this

theorem wcinv_setNumberOfThreads (s : WCState) (n : Nat) (h : WCInv s) :
    WCInv (setNumberOfThreads s n) := by
  simp only [setNumberOfThreads]
  split_ifs with h1 h2 h3
  · intro i
    simp
  · intro i
    rw [Finset.mem_sdiff, Finset.mem_Ico]
    constructor
    · rintro ⟨hir, hni⟩
      obtain ⟨hil, hib⟩ := (h i).mp hir
      have hin : i < n := by
        by_contra hc
        exact hni ⟨Nat.le_of_not_lt hc, hil⟩
      refine ⟨?_, ?_⟩
      · rw [List.length_take]
        exact lt_min hin hil
      · rw [getD_take_wr _ hin]
        exact hib
    · rintro ⟨hil, hib⟩
      rw [List.length_take] at hil
      have hin : i < n := lt_of_lt_of_le hil (min_le_left _ _)
      have hilen : i < s.threads.length := lt_of_lt_of_le hil (min_le_right _ _)
      rw [getD_take_wr _ hin] at hib
      exact ⟨(h i).mpr ⟨hilen, hib⟩, fun hico => (Nat.not_lt.mpr hico.1) hin⟩
  · apply wcinv_checkTasksState
    intro j
    obtain ⟨hdes, hgt⟩ := h3
    rw [Finset.mem_union, Finset.mem_Ico]
    rw [List.length_append, List.length_map, List.length_range]
    by_cases hjl : j < s.threads.length
    · rw [getD_append_left_wr _ _ hjl]
      constructor
      · rintro (hr | ⟨hle, _⟩)
        · exact ⟨by omega, ((h j).mp hr).2⟩
        · omega
      · rintro ⟨_, hb⟩
        exact Or.inl ((h j).mpr ⟨hjl, hb⟩)
    · by_cases hjn : j < n
      · have hle : s.threads.length ≤ j := Nat.le_of_not_lt hjl
        rw [getD_append_right_wr _ _ hle, getD_map_range_wr _ (by omega)]
        constructor
        · intro _
          exact ⟨by omega, rfl⟩
        · intro _
          exact Or.inr ⟨hle, hjn⟩
      · constructor
        · rintro (hr | ⟨_, hlt⟩)
          · exact absurd ((h j).mp hr).1 hjl
          · exact absurd hlt hjn
        · rintro ⟨hlt, _⟩
          omega
  · exact h

theorem wcinv_clearQueue (s : WCState) (h : WCInv s) : WCInv (clearQueue s) := by
  unfold clearQueue
  split_ifs with h1
  · exact h
  · exact fun i => h i

theorem wcinv_extendQueue (s : WCState) (l : List Nat) (h : WCInv s) :
    WCInv (extendQueue s l) := by
  unfold extendQueue
  split_ifs with h1
  · exact h
  · exact wcinv_checkTasksState { s with tasks := s.tasks ++ l } (fun i => h i)

theorem wcinv_workerFinished (s : WCState) (wid uuid : Nat) (h : WCInv s) :
    WCInv (workerFinished s wid uuid) := by
  simp only [workerFinished]
  generalize (wid + (szMod - 1)) % szMod = idx
  split_ifs with hc
  · obtain ⟨hlt, _⟩ := hc
    apply wcinv_checkTasksState
    intro j
    rw [Finset.mem_insert, List.length_set]
    by_cases hji : j = idx
    · subst hji
      simp only [true_or, true_iff]
      rw [getD_set_self_wr _ _ _ hlt]
      exact ⟨hlt, rfl⟩
    · rw [getD_set_ne_wr _ _ (fun hh => hji hh.symm)]
      constructor
      · rintro (hji2 | hr)
        · exact absurd hji2 hji
        · exact (h j).mp hr
      · intro hp
        exact Or.inr ((h j).mpr hp)
  · exact h

theorem wcinv_reachable {s : WCState} (h : WCReachable s) : WCInv s := by
  induction h with
  | init => exact wcinv_init
  | setThreads n _ ih => exact wcinv_setNumberOfThreads _ n ih
  | clear _ ih => exact wcinv_clearQueue _ ih
  | extend l _ ih => exact wcinv_extendQueue _ l ih
  | check _ ih => exact wcinv_checkTasksState _ ih
  | finished wid uuid _ ih => exact wcinv_workerFinished _ wid uuid ih

theorem card_filter_range_getD (l : List WorkerRec) :
    ((Finset.range l.length).filter (fun i => (l.getD i default).busy = true)).card =
      (l.filter (fun w => w.busy)).length := by
  induction l with
  | nil => simp
  | cons a t ih =>
    rw [Finset.card_filter] at ih ⊢
    rw [List.length_cons, Finset.sum_range_succ']
    have hshift : ∀ i : Nat,
        (((a :: t).getD (i + 1) default).busy = true) = ((t.getD i default).busy = true) :=
      fun i => rfl
    simp only [hshift]
    rw [ih]
    by_cases ha : a.busy
    · simp [List.filter_cons, ha, Nat.add_comm]
    · simp [List.filter_cons, ha]

theorem ready_card_eq (l : List WorkerRec) (rs : Finset Nat)
    (h : ∀ i, i ∈ rs ↔ (i < l.length ∧ (l.getD i default).busy = false)) :
    rs.card + (l.filter (fun w => w.busy)).length = l.length := by
  have hset : rs = (Finset.range l.length).filter
      (fun i => (l.getD i default).busy = false) := by
    ext i
    simp [Finset.mem_filter, Finset.mem_range, h i]
  rw [hset]
  have h1 : ((Finset.range l.length).filter
      (fun i => ¬ ((l.getD i default).busy = false))).card =
      (l.filter (fun w => w.busy)).length := by
    rw [← card_filter_range_getD l]
    congr 1
    apply Finset.filter_congr
    intro i _
    simp
  have h2 := Finset.filter_card_add_filter_neg_card_eq_card
    (s := Finset.range l.length) (p := fun i => (l.getD i default).busy = false)
  rw [h1, Finset.card_range] at h2
  exact h2

/-- Claim C4: in every controller state reachable from the initial state by
`setNumberOfThreads`, `extendQueue`, `clearQueue`, `checkTasks` and
`workerFinished` steps, every index in the ready set is a valid index into the
worker-record vector, and the size of the ready set plus the number of workers
with exactly one outstanding task equals the number of worker records. -/
theorem ready_set_invariant (s : WCState) (h : WCReachable s) :
    (∀ i ∈ s.workersReady, i < s.threads.length) ∧
    s.workersReady.card + (s.threads.filter (fun w => w.busy)).length =
      s.threads.length := by
  have hinv := wcinv_reachable h
  exact ⟨fun i hi => ((hinv i).mp hi).1, ready_card_eq _ _ hinv⟩

/-- Witness for claim C4 at a concrete reachable state: the controller after
`setNumberOfThreads(2)` from the initial state. -/
theorem ready_set_invariant_witness :
    (∀ i ∈ (setNumberOfThreads initWC 2).workersReady,
      i < (setNumberOfThreads initWC 2).threads.length) ∧
    (setNumberOfThreads initWC 2).workersReady.card +
      ((setNumberOfThreads initWC 2).threads.filter (fun w => w.busy)).length =
      (setNumberOfThreads initWC 2).threads.length :=
  ready_set_invariant _ (WCReachable.setThreads 2 WCReachable.init)

theorem filter_eraseP_self {α : Type} (p : α → Bool) (l : List α) :
    (l.eraseP p).filter p = (l.filter p).tail := by
  induction l with
  | nil => rfl
  | cons x t ih =>
    by_cases hx : p x
    · rw [List.eraseP_cons_of_pos hx, List.filter_cons_of_pos hx, List.tail_cons]
    · rw [List.eraseP_cons_of_neg (by simp [hx]), List.filter_cons_of_neg (by simp [hx]),
        List.filter_cons_of_neg (by simp [hx]), ih]

theorem filter_eraseP_disjoint {α : Type} (p q : α → Bool) (l : List α)
    (hpq : ∀ x, p x = true → q x = false) :
    (l.eraseP p).filter q = l.filter q := by
  induction l with
  | nil => rfl
  | cons x t ih =>
    by_cases hx : p x
    · rw [List.eraseP_cons_of_pos hx, List.filter_cons_of_neg (by simp [hpq x hx])]
    · rw [List.eraseP_cons_of_neg (by simp [hx])]
      by_cases hq : q x
      · rw [List.filter_cons_of_pos hq, List.filter_cons_of_pos hq, ih]
      · rw [List.filter_cons_of_neg (by simp [hq]), List.filter_cons_of_neg (by simp [hq]), ih]

theorem registerSlot_fwd_table {s : DState} {e r f : Nat} {m : CType}
    (hex : connectionExists (s.fwd e) r f = false) :
    (registerSlot s e r f m).fwd = pupd s.fwd e (fun tf => apush tf r (f, m)) := by
  unfold registerSlot
  simp [hex]

theorem registerSlot_inv_table {s : DState} {e r f : Nat} {m : CType}
    (hex : connectionExists (s.fwd e) r f = false) :
    (registerSlot s e r f m).inv = pupd s.inv r (fun ti => apush ti f e) := by
  unfold registerSlot
  simp [hex]

theorem connectionExists_pos (s : DState) (e r f : Nat) :
    connectionExists (s.fwd e) r f = true ↔ 0 < rowCount s e r f := by
  rw [connectionExists_true_iff]
  unfold rowCount
  constructor
  · intro h1
    exact List.length_pos.mpr h1
  · intro h1
    exact List.length_pos.mp h1

theorem rowCount_registerSlot (s : DState) (e r f : Nat) (m : CType) (e' r' f' : Nat) :
    rowCount (registerSlot s e r f m) e' r' f' =
      if connectionExists (s.fwd e) r f = true then rowCount s e' r' f'
      else if e' = e ∧ r' = r ∧ f' = f then rowCount s e' r' f' + 1
      else rowCount s e' r' f' := by
  by_cases hex : connectionExists (s.fwd e) r f = true
  · rw [if_pos hex, registerSlot_noop hex]
  · have hex2 : connectionExists (s.fwd e) r f = false := by
      cases hcc : connectionExists (s.fwd e) r f
      · rfl
      · exact absurd hcc hex
    rw [if_neg hex]
    unfold rowCount
    rw [registerSlot_fwd_table hex2]
    by_cases he : e' = e
    · subst he
      rw [show pupd s.fwd e' (fun tf => apush tf r (f, m)) e' = apush (s.fwd e') r (f, m)
        from by simp [pupd]]
      by_cases hr : r' = r
      · subst hr
        rw [lookupD_apush_self, List.filter_append]
        by_cases hf : f' = f
        · subst hf
          rw [if_pos ⟨rfl, rfl, rfl⟩]
          simp
        · rw [if_neg (fun hc => hf hc.2.2)]
          have hfs : ¬ f = f' := fun hc => hf hc.symm
          simp [hfs]
      · rw [lookupD_apush_ne _ _ _ _ hr, if_neg (fun hc => hr hc.2.1)]
    · rw [show pupd s.fwd e (fun tf => apush tf r (f, m)) e' = s.fwd e'
        from by simp [pupd, he], if_neg (fun hc => he hc.1)]

theorem occCount_registerSlot (s : DState) (e r f : Nat) (m : CType) (r' f' e' : Nat) :
    occCount (registerSlot s e r f m) r' f' e' =
      if connectionExists (s.fwd e) r f = true then occCount s r' f' e'
      else if r' = r ∧ f' = f ∧ e' = e then occCount s r' f' e' + 1
      else occCount s r' f' e' := by
  by_cases hex : connectionExists (s.fwd e) r f = true
  · rw [if_pos hex, registerSlot_noop hex]
  · have hex2 : connectionExists (s.fwd e) r f = false := by
      cases hcc : connectionExists (s.fwd e) r f
      · rfl
      · exact absurd hcc hex
    rw [if_neg hex]
    unfold occCount
    rw [registerSlot_inv_table hex2]
    by_cases hr : r' = r
    · subst hr
      rw [show pupd s.inv r' (fun ti => apush ti f e) r' = apush (s.inv r') f e
        from by simp [pupd]]
      by_cases hf : f' = f
      · subst hf
        rw [lookupD_apush_self, List.count_append]
        by_cases heq : e' = e
        · subst heq
          rw [if_pos ⟨rfl, rfl, rfl⟩]
          simp
        · rw [if_neg (fun hc => heq hc.2.2)]
          have hes : ¬ e = e' := fun hc => heq hc.symm
          simp [List.count_singleton, hes]
      · rw [lookupD_apush_ne _ _ _ _ hf, if_neg (fun hc => hf hc.2.1)]
    · rw [show pupd s.inv r (fun ti => apush ti f e) r' = s.inv r'
        from by simp [pupd, hr], if_neg (fun hc => hr hc.1)]

theorem rowCount_disc_both (s : DState) (e r f e' r' f' : Nat) :
    rowCount (disconnect (some f) (some e) (some r) s) e' r' f' =
      if e' = e ∧ r' = r ∧ f' = f then rowCount s e' r' f' - 1
      else rowCount s e' r' f' := by
  unfold rowCount
  have hfwd : (disconnect (some f) (some e) (some r) s).fwd =
      pupd s.fwd e (dLIS (some f) (some r)) := rfl
  rw [hfwd]
  by_cases he : e' = e
  · subst he
    rw [show pupd s.fwd e' (dLIS (some f) (some r)) e' = dLIS (some f) (some r) (s.fwd e')
      from by simp [pupd]]
    have hl : lookupD (dLIS (some f) (some r) (s.fwd e')) r' =
        if r' = r then eraseRow f (lookupD (s.fwd e') r') else lookupD (s.fwd e') r' := by
      unfold dLIS
      rw [lookupD_mapVals _ _ _ (by by_cases h : r' = r <;> simp [h, eraseRow])]
    rw [hl]
    by_cases hr : r' = r
    · subst hr
      rw [if_pos rfl]
      by_cases hf : f' = f
      · subst hf
        rw [if_pos ⟨rfl, rfl, rfl⟩]
        unfold eraseRow
        rw [filter_eraseP_self, List.length_tail]
      · rw [if_neg (fun hc => hf hc.2.2)]
        unfold eraseRow
        rw [filter_eraseP_disjoint _ _ _ ?hdisj]
        case hdisj =>
          intro x hx
          simp only [decide_eq_true_eq] at hx
          have hfs : ¬ f = f' := fun hc => hf hc.symm
          simp [hx, hfs]
    · rw [if_neg hr, if_neg (fun hc => hr hc.2.1)]
  · rw [show pupd s.fwd e (dLIS (some f) (some r)) e' = s.fwd e'
      from by simp [pupd, he], if_neg (fun hc => he hc.1)]

theorem occCount_disc_both (s : DState) (e r f r' f' e' : Nat) :
    occCount (disconnect (some f) (some e) (some r) s) r' f' e' =
      if r' = r ∧ f' = f ∧ e' = e then occCount s r' f' e' - 1
      else occCount s r' f' e' := by
  unfold occCount
  have hinv : (disconnect (some f) (some e) (some r) s).inv =
      pupd s.inv r (dLISP (some f) (some e)) := rfl
  rw [hinv]
  by_cases hr : r' = r
  · subst hr
    rw [show pupd s.inv r' (dLISP (some f) (some e)) r' = dLISP (some f) (some e) (s.inv r')
      from by simp [pupd]]
    have hl : lookupD (dLISP (some f) (some e) (s.inv r')) f' =
        if f' = f then (lookupD (s.inv r') f').erase e else lookupD (s.inv r') f' := by
      unfold dLISP
      rw [lookupD_mapVals _ _ _ (by by_cases h : f' = f <;> simp [h])]
    rw [hl]
    by_cases hf : f' = f
    · subst hf
      rw [if_pos rfl]
      by_cases heq : e' = e
      · subst heq
        rw [if_pos ⟨rfl, rfl, rfl⟩, List.count_erase_self]
      · rw [if_neg (fun hc => heq hc.2.2), List.count_erase_of_ne heq]
    · rw [if_neg hf, if_neg (fun hc => hf hc.2.1)]
  · rw [show pupd s.inv r (dLISP (some f) (some e)) r' = s.inv r'
      from by simp [pupd, hr], if_neg (fun hc => hr hc.1)]

/-- Claim C2: for every emitter, receiver and slot identity, after any
sequence of `registerSlot` (with arbitrary modes) and fully-specified
`disconnect` operations starting from the empty dispatch state, the emitter's
forward table holds exactly one row for the pair when the last operation
addressing it was a registration, and zero rows otherwise (net parity);
the receiver's inverse table always agrees.  In particular `registerSlot`
is idempotent and `disconnect` returns the pair to zero rows in both tables. -/
theorem connect_disconnect_net_parity :
    ∀ (ops : List PairOp) (e r f : Nat),
      rowCount (runPair ops) e r f = (if liveAfter ops e r f = true then 1 else 0) ∧
      occCount (runPair ops) r f e = (if liveAfter ops e r f = true then 1 else 0) := by
  intro ops
  induction ops using List.reverseRecOn with
  | nil =>
    intro e r f
    constructor <;> rfl
  | append_singleton ops op ih =>
    intro e r f
    obtain ⟨ihr, iho⟩ := ih e r f
    have hrun : runPair (ops ++ [op]) = applyPairOp (runPair ops) op := by
      simp [runPair, List.foldl_append]
    have hlive : liveAfter (ops ++ [op]) e r f =
        (if touchesPair e r f op = true then isRegOp op else liveAfter ops e r f) := by
      simp [liveAfter, List.foldl_append]
    rw [hrun, hlive]
    cases op with
    | reg e2 r2 f2 m =>
      have htp : (touchesPair e r f (PairOp.reg e2 r2 f2 m) = true) ↔
          (e = e2 ∧ r = r2 ∧ f = f2) := by
        simp only [touchesPair, Bool.and_eq_true, beq_iff_eq]
        constructor
        · rintro ⟨⟨h1, h2⟩, h3⟩
          exact ⟨h1.symm, h2.symm, h3.symm⟩
        · rintro ⟨h1, h2, h3⟩
          exact ⟨⟨h1.symm, h2.symm⟩, h3.symm⟩
      simp only [applyPairOp]
      by_cases hex : connectionExists ((runPair ops).fwd e2) r2 f2 = true
      · by_cases htouch : e = e2 ∧ r = r2 ∧ f = f2
        · obtain ⟨he, hr, hf⟩ := htouch
          subst he
          subst hr
          subst hf
          have hpos := (connectionExists_pos _ _ _ _).mp hex
          rw [ihr] at hpos
          have hl : liveAfter ops e r f = true := by
            cases hlv : liveAfter ops e r f
            · rw [hlv] at hpos
              simp at hpos
            · rfl
          rw [if_pos (htp.mpr ⟨rfl, rfl, rfl⟩)]
          constructor
          · rw [rowCount_registerSlot, if_pos hex, ihr, hl]
            rfl
          · rw [occCount_registerSlot, if_pos hex, iho, hl]
            rfl
        · rw [if_neg (fun hb => htouch (htp.mp hb))]
          constructor
          · rw [rowCount_registerSlot, if_pos hex]
            exact ihr
          · rw [occCount_registerSlot, if_pos hex]
            exact iho
      · by_cases htouch : e = e2 ∧ r = r2 ∧ f = f2
        · obtain ⟨he, hr, hf⟩ := htouch
          subst he
          subst hr
          subst hf
          have h0 : rowCount (runPair ops) e r f = 0 := by
            by_contra hc
            exact hex ((connectionExists_pos _ _ _ _).mpr (Nat.pos_of_ne_zero hc))
          have hl : liveAfter ops e r f = false := by
            cases hlv : liveAfter ops e r f
            · rfl
            · rw [ihr, hlv] at h0
              simp at h0
          rw [if_pos (htp.mpr ⟨rfl, rfl, rfl⟩)]
          constructor
          · rw [rowCount_registerSlot, if_neg hex, if_pos ⟨rfl, rfl, rfl⟩, ihr, hl]
            rfl
          · rw [occCount_registerSlot, if_neg hex, if_pos ⟨rfl, rfl, rfl⟩, iho, hl]
            rfl
        · rw [if_neg (fun hb => htouch (htp.mp hb))]
          have hne1 : ¬ (e = e2 ∧ r = r2 ∧ f = f2) := htouch
          constructor
          · rw [rowCount_registerSlot, if_neg hex, if_neg hne1]
            exact ihr
          · rw [occCount_registerSlot, if_neg hex,
              if_neg (fun hc => hne1 ⟨hc.2.2, hc.1, hc.2.1⟩)]
            exact iho
    | disc e2 r2 f2 =>
      have htp : (touchesPair e r f (PairOp.disc e2 r2 f2) = true) ↔
          (e = e2 ∧ r = r2 ∧ f = f2) := by
        simp only [touchesPair, Bool.and_eq_true, beq_iff_eq]
        constructor
        · rintro ⟨⟨h1, h2⟩, h3⟩
          exact ⟨h1.symm, h2.symm, h3.symm⟩
        · rintro ⟨h1, h2, h3⟩
          exact ⟨⟨h1.symm, h2.symm⟩, h3.symm⟩
      simp only [applyPairOp]
      by_cases htouch : e = e2 ∧ r = r2 ∧ f = f2
      · obtain ⟨he, hr, hf⟩ := htouch
        subst he
        subst hr
        subst hf
        rw [if_pos (htp.mpr ⟨rfl, rfl, rfl⟩)]
        constructor
        · rw [rowCount_disc_both, if_pos ⟨rfl, rfl, rfl⟩, ihr]
          cases hlv : liveAfter ops e r f <;> simp [isRegOp]
        · rw [occCount_disc_both, if_pos ⟨rfl, rfl, rfl⟩, iho]
          cases hlv : liveAfter ops e r f <;> simp [isRegOp]
      · rw [if_neg (fun hb => htouch (htp.mp hb))]
        constructor
        · rw [rowCount_disc_both, if_neg htouch]
          exact ihr
        · rw [occCount_disc_both,
            if_neg (fun hc => htouch ⟨hc.2.2, hc.1, hc.2.1⟩)]
          exact iho

theorem lookupD_dLIS_none_none (tf : FTable) (k : Nat) :
    lookupD (dLIS none none tf) k = [] := rfl

theorem lookupD_dLIS_none_some (tf : FTable) (r k : Nat) :
    lookupD (dLIS none (some r) tf) k = if k = r then [] else lookupD tf k := by
  unfold dLIS
  exact lookupD_akeyErase tf r k

theorem lookupD_dLIS_some_none (f : Nat) (tf : FTable) (k : Nat) :
    lookupD (dLIS (some f) none tf) k = eraseRow f (lookupD tf k) := by
  unfold dLIS
  rw [lookupD_mapVals _ _ _ (by simp [eraseRow])]

theorem lookupD_dLIS_some_some (f r : Nat) (tf : FTable) (k : Nat) :
    lookupD (dLIS (some f) (some r) tf) k =
      if k = r then eraseRow f (lookupD tf k) else lookupD tf k := by
  unfold dLIS
  rw [lookupD_mapVals _ _ _ (by by_cases h : k = r <;> simp [h, eraseRow])]

theorem lookupD_dLISP_none_none (ti : ITable) (k : Nat) :
    lookupD (dLISP none none ti) k = [] := rfl

theorem lookupD_dLISP_some_none (f : Nat) (ti : ITable) (k : Nat) :
    lookupD (dLISP (some f) none ti) k = if k = f then [] else lookupD ti k := by
  unfold dLISP
  exact lookupD_akeyErase ti f k

theorem lookupD_dLISP_none_some (e : Nat) (ti : ITable) (k : Nat) :
    lookupD (dLISP none (some e) ti) k = (lookupD ti k).erase e := by
  unfold dLISP
  rw [lookupD_mapVals _ _ _ (by simp)]

theorem lookupD_dLISP_some_some (f e : Nat) (ti : ITable) (k : Nat) :
    lookupD (dLISP (some f) (some e) ti) k =
      if k = f then (lookupD ti k).erase e else lookupD ti k := by
  unfold dLISP
  rw [lookupD_mapVals _ _ _ (by by_cases h : k = f <;> simp [h])]

theorem length_filter_eraseRow (f f' : Nat) (rows : List Row) :
    ((eraseRow f rows).filter (fun p => p.1 = f')).length =
      if f' = f then ((rows.filter (fun p => p.1 = f')).length) - 1
      else (rows.filter (fun p => p.1 = f')).length := by
  by_cases hf : f' = f
  · subst hf
    rw [if_pos rfl]
    unfold eraseRow
    rw [filter_eraseP_self, List.length_tail]
  · rw [if_neg hf]
    unfold eraseRow
    rw [filter_eraseP_disjoint _ _ _ ?hd]
    case hd =>
      intro x hx
      simp only [decide_eq_true_eq] at hx
      have hfs : ¬ x.1 = f' := by
        rw [hx]
        exact fun hc => hf hc.symm
      simp [hfs]

theorem count_erase_eq (e e' : Nat) (l : List Nat) :
    (l.erase e).count e' = if e' = e then l.count e' - 1 else l.count e' := by
  by_cases he : e' = e
  · subst he
    rw [if_pos rfl, List.count_erase_self]
  · rw [if_neg he, List.count_erase_of_ne he]

theorem keysUnique_dLIS (slot recv : Option Nat) {tf : FTable}
    (h : keysUnique tf) : keysUnique (dLIS slot recv tf) := by
  cases slot with
  | none =>
    cases recv with
    | none => simp [dLIS, keysUnique]
    | some r => exact keysUnique_akeyErase r h
  | some f =>
    cases recv with
    | none => unfold dLIS; exact keysUnique_mapVals _ h
    | some r => unfold dLIS; exact keysUnique_mapVals _ h

theorem keysUnique_dLISP (slot sig : Option Nat) {ti : ITable}
    (h : keysUnique ti) : keysUnique (dLISP slot sig ti) := by
  cases slot with
  | none =>
    cases sig with
    | none => simp [dLISP, keysUnique]
    | some e => unfold dLISP; exact keysUnique_mapVals _ h
  | some f =>
    cases sig with
    | none => exact keysUnique_akeyErase f h
    | some e => unfold dLISP; exact keysUnique_mapVals _ h

theorem lookupD_of_mem_unique {β : Type} {l : List (Nat × List β)} {kv : Nat × List β}
    (hu : keysUnique l) (hm : kv ∈ l) : lookupD l kv.1 = kv.2 := by
  unfold lookupD
  rw [alookup_of_mem_unique hu (by simpa using hm)]
  rfl

theorem mem_connectedSlotsOf_of_lookup {tf : FTable} {r : Nat}
    (h : lookupD tf r ≠ []) : r ∈ connectedSlotsOf tf := by
  unfold connectedSlotsOf
  rw [List.mem_dedup]
  cases hl : alookup tf r with
  | none =>
    exact absurd (by simp [lookupD, hl]) h
  | some v =>
    exact List.mem_map_of_mem _ (alookup_mem hl)

theorem mem_connectedSignalsOf_of_mem {ti : ITable} {f e : Nat}
    (h : e ∈ lookupD ti f) : e ∈ connectedSignalsOf ti := by
  unfold connectedSignalsOf
  rw [List.mem_dedup, List.mem_flatten]
  cases hl : alookup ti f with
  | none =>
    rw [lookupD, hl] at h
    simp at h
  | some v =>
    rw [lookupD, hl] at h
    exact ⟨v, List.mem_map_of_mem _ (alookup_mem hl), h⟩

theorem occ_zero_of_not_connSignals {s : DState} {r e : Nat}
    (h : e ∉ connectedSignalsOf (s.inv r)) (f : Nat) : occCount s r f e = 0 := by
  unfold occCount
  rw [List.count_eq_zero]
  exact fun hc => h (mem_connectedSignalsOf_of_mem hc)

theorem row_zero_of_not_connSlots {s : DState} {e r : Nat}
    (h : r ∉ connectedSlotsOf (s.fwd e)) (f : Nat) : rowCount s e r f = 0 := by
  unfold rowCount
  have hnil : lookupD (s.fwd e) r = [] := by
    by_contra hc
    exact h (mem_connectedSlotsOf_of_lookup hc)
  rw [hnil]
  rfl

theorem mem_emitTargets {s : DState} {e : Nat} {x : Nat × Row} :
    x ∈ emitTargets s e ↔ ∃ kv ∈ s.fwd e, ∃ row ∈ kv.2, x = (kv.1, row) := by
  unfold emitTargets
  rw [List.mem_flatten]
  constructor
  · rintro ⟨l, hl, hx⟩
    rw [List.mem_map] at hl
    obtain ⟨kv, hkv, rfl⟩ := hl
    rw [List.mem_map] at hx
    obtain ⟨row, hrow, rfl⟩ := hx
    exact ⟨kv, hkv, row, hrow, rfl⟩
  · rintro ⟨kv, hkv, row, hrow, rfl⟩
    exact ⟨kv.2.map (fun row => (kv.1, row)), List.mem_map_of_mem _ hkv,
      List.mem_map_of_mem _ hrow⟩

theorem disconnect_recvOnly_fwd (slot : Option Nat) (r : Nat) (s : DState) (e' : Nat) :
    (disconnect slot none (some r) s).fwd e' =
      if e' ∈ connectedSignalsOf (s.inv r) then dLIS slot (some r) (s.fwd e')
      else s.fwd e' := rfl

theorem disconnect_recvOnly_inv (slot : Option Nat) (r : Nat) (s : DState) :
    (disconnect slot none (some r) s).inv = pupd s.inv r (dLISP slot none) := rfl

theorem disconnect_sigOnly_fwd (slot : Option Nat) (e : Nat) (s : DState) :
    (disconnect slot (some e) none s).fwd = pupd s.fwd e (dLIS slot none) := rfl

theorem disconnect_sigOnly_inv (slot : Option Nat) (e : Nat) (s : DState) (r' : Nat) :
    (disconnect slot (some e) none s).inv r' =
      if r' ∈ connectedSlotsOf (s.fwd e) then dLISP slot (some e) (s.inv r')
      else s.inv r' := rfl

theorem pupd_self {α : Type} (m : Nat → α) (k : Nat) (g : α → α) :
    pupd m k g k = g (m k) := by
  simp [pupd]

theorem pupd_other {α : Type} (m : Nat → α) {k k' : Nat} (g : α → α) (h : k' ≠ k) :
    pupd m k g k' = m k' := by
  simp [pupd, h]

theorem rowCount_disc_both_none (s : DState) (e r e' r' f' : Nat) :
    rowCount (disconnect none (some e) (some r) s) e' r' f' =
      if e' = e ∧ r' = r then 0 else rowCount s e' r' f' := by
  unfold rowCount
  have hfwd : (disconnect none (some e) (some r) s).fwd =
      pupd s.fwd e (dLIS none (some r)) := rfl
  rw [hfwd]
  by_cases he : e' = e
  · subst he
    rw [pupd_self, lookupD_dLIS_none_some]
    by_cases hr : r' = r
    · rw [if_pos hr, if_pos ⟨rfl, hr⟩]
      rfl
    · rw [if_neg hr, if_neg (fun hc => hr hc.2)]
  · rw [pupd_other _ _ he, if_neg (fun hc => he hc.1)]

theorem occCount_disc_both_none (s : DState) (e r r' f' e' : Nat) :
    occCount (disconnect none (some e) (some r) s) r' f' e' =
      if r' = r ∧ e' = e then occCount s r' f' e' - 1 else occCount s r' f' e' := by
  unfold occCount
  have hinv : (disconnect none (some e) (some r) s).inv =
      pupd s.inv r (dLISP none (some e)) := rfl
  rw [hinv]
  by_cases hr : r' = r
  · subst hr
    rw [pupd_self, lookupD_dLISP_none_some, count_erase_eq]
    by_cases he : e' = e
    · rw [if_pos he, if_pos ⟨rfl, he⟩]
    · rw [if_neg he, if_neg (fun hc => he hc.2)]
  · rw [pupd_other _ _ hr, if_neg (fun hc => hr hc.1)]

theorem rowCount_disc_sigOnly_some (s : DState) (e f e' r' f' : Nat) :
    rowCount (disconnect (some f) (some e) none s) e' r' f' =
      if e' = e ∧ f' = f then rowCount s e' r' f' - 1 else rowCount s e' r' f' := by
  unfold rowCount
  rw [disconnect_sigOnly_fwd]
  by_cases he : e' = e
  · subst he
    rw [pupd_self, lookupD_dLIS_some_none, length_filter_eraseRow]
    by_cases hf : f' = f
    · rw [if_pos hf, if_pos ⟨rfl, hf⟩]
    · rw [if_neg hf, if_neg (fun hc => hf hc.2)]
  · rw [pupd_other _ _ he, if_neg (fun hc => he hc.1)]

theorem rowCount_disc_sigOnly_none (s : DState) (e e' r' f' : Nat) :
    rowCount (disconnect none (some e) none s) e' r' f' =
      if e' = e then 0 else rowCount s e' r' f' := by
  unfold rowCount
  rw [disconnect_sigOnly_fwd]
  by_cases he : e' = e
  · subst he
    rw [pupd_self, lookupD_dLIS_none_none, if_pos rfl]
    rfl
  · rw [pupd_other _ _ he, if_neg he]

theorem occCount_disc_sigOnly_some (s : DState) (e f r' f' e' : Nat) :
    occCount (disconnect (some f) (some e) none s) r' f' e' =
      if r' ∈ connectedSlotsOf (s.fwd e) ∧ f' = f ∧ e' = e
      then occCount s r' f' e' - 1 else occCount s r' f' e' := by
  unfold occCount
  rw [disconnect_sigOnly_inv]
  by_cases hm : r' ∈ connectedSlotsOf (s.fwd e)
  · rw [if_pos hm, lookupD_dLISP_some_some]
    by_cases hf : f' = f
    · rw [if_pos hf, count_erase_eq]
      by_cases he : e' = e
      · rw [if_pos he, if_pos ⟨hm, hf, he⟩]
      · rw [if_neg he, if_neg (fun hc => he hc.2.2)]
    · rw [if_neg hf, if_neg (fun hc => hf hc.2.1)]
  · rw [if_neg hm, if_neg (fun hc => hm hc.1)]

theorem occCount_disc_sigOnly_none (s : DState) (e r' f' e' : Nat) :
    occCount (disconnect none (some e) none s) r' f' e' =
      if r' ∈ connectedSlotsOf (s.fwd e) ∧ e' = e
      then occCount s r' f' e' - 1 else occCount s r' f' e' := by
  unfold occCount
  rw [disconnect_sigOnly_inv]
  by_cases hm : r' ∈ connectedSlotsOf (s.fwd e)
  · rw [if_pos hm, lookupD_dLISP_none_some, count_erase_eq]
    by_cases he : e' = e
    · rw [if_pos he, if_pos ⟨hm, he⟩]
    · rw [if_neg he, if_neg (fun hc => he hc.2)]
  · rw [if_neg hm, if_neg (fun hc => hm hc.1)]

theorem rowCount_disc_recvOnly_some (s : DState) (r f e' r' f' : Nat) :
    rowCount (disconnect (some f) none (some r) s) e' r' f' =
      if e' ∈ connectedSignalsOf (s.inv r) ∧ r' = r ∧ f' = f
      then rowCount s e' r' f' - 1 else rowCount s e' r' f' := by
  unfold rowCount
  rw [disconnect_recvOnly_fwd]
  by_cases hm : e' ∈ connectedSignalsOf (s.inv r)
  · rw [if_pos hm, lookupD_dLIS_some_some]
    by_cases hr : r' = r
    · rw [if_pos hr, length_filter_eraseRow]
      by_cases hf : f' = f
      · rw [if_pos hf, if_pos ⟨hm, hr, hf⟩]
      · rw [if_neg hf, if_neg (fun hc => hf hc.2.2)]
    · rw [if_neg hr, if_neg (fun hc => hr hc.2.1)]
  · rw [if_neg hm, if_neg (fun hc => hm hc.1)]

theorem rowCount_disc_recvOnly_none (s : DState) (r e' r' f' : Nat) :
    rowCount (disconnect none none (some r) s) e' r' f' =
      if e' ∈ connectedSignalsOf (s.inv r) ∧ r' = r then 0
      else rowCount s e' r' f' := by
  unfold rowCount
  rw [disconnect_recvOnly_fwd]
  by_cases hm : e' ∈ connectedSignalsOf (s.inv r)
  · rw [if_pos hm, lookupD_dLIS_none_some]
    by_cases hr : r' = r
    · rw [if_pos hr, if_pos ⟨hm, hr⟩]
      rfl
    · rw [if_neg hr, if_neg (fun hc => hr hc.2)]
  · rw [if_neg hm, if_neg (fun hc => hm hc.1)]

theorem occCount_disc_recvOnly_some (s : DState) (r f r' f' e' : Nat) :
    occCount (disconnect (some f) none (some r) s) r' f' e' =
      if r' = r ∧ f' = f then 0 else occCount s r' f' e' := by
  unfold occCount
  rw [disconnect_recvOnly_inv]
  by_cases hr : r' = r
  · subst hr
    rw [pupd_self, lookupD_dLISP_some_none]
    by_cases hf : f' = f
    · rw [if_pos hf, if_pos ⟨rfl, hf⟩]
      rfl
    · rw [if_neg hf, if_neg (fun hc => hf hc.2)]
  · rw [pupd_other _ _ hr, if_neg (fun hc => hr hc.1)]

theorem occCount_disc_recvOnly_none (s : DState) (r r' f' e' : Nat) :
    occCount (disconnect none none (some r) s) r' f' e' =
      if r' = r then 0 else occCount s r' f' e' := by
  unfold occCount
  rw [disconnect_recvOnly_inv]
  by_cases hr : r' = r
  · subst hr
    rw [pupd_self, lookupD_dLISP_none_none, if_pos rfl]
    rfl
  · rw [pupd_other _ _ hr, if_neg hr]

theorem dinv_empty : DInv emptyD :=
  ⟨fun _ => ⟨List.nodup_nil, List.nodup_nil⟩,
   fun _ _ _ => Nat.zero_le 1,
   fun _ _ _ => rfl⟩

theorem dinv_register (s : DState) (e r f : Nat) (m : CType) (h : DInv s) :
    DInv (registerSlot s e r f m) := by
  obtain ⟨hU, hB, hC⟩ := h
  by_cases hex : connectionExists (s.fwd e) r f = true
  · rw [registerSlot_noop hex]
    exact ⟨hU, hB, hC⟩
  · have hex2 : connectionExists (s.fwd e) r f = false := by
      cases hcc : connectionExists (s.fwd e) r f
      · rfl
      · exact absurd hcc hex
    refine ⟨?_, ?_, ?_⟩
    · intro x
      constructor
      · rw [registerSlot_fwd_table hex2]
        by_cases hx : x = e
        · subst hx
          rw [pupd_self]
          exact keysUnique_apush _ _ (hU x).1
        · rw [pupd_other _ _ hx]
          exact (hU x).1
      · rw [registerSlot_inv_table hex2]
        by_cases hx : x = r
        · subst hx
          rw [pupd_self]
          exact keysUnique_apush _ _ (hU x).2
        · rw [pupd_other _ _ hx]
          exact (hU x).2
    · intro e' r' f'
      rw [rowCount_registerSlot, if_neg hex]
      by_cases ht : e' = e ∧ r' = r ∧ f' = f
      · rcases ht with ⟨rfl, rfl, rfl⟩
        rw [if_pos ⟨rfl, rfl, rfl⟩]
        have h0 : rowCount s e' r' f' = 0 := by
          by_contra hc
          exact hex ((connectionExists_pos _ _ _ _).mpr (Nat.pos_of_ne_zero hc))
        omega
      · rw [if_neg ht]
        exact hB e' r' f'
    · intro e' r' f'
      rw [rowCount_registerSlot, occCount_registerSlot, if_neg hex, if_neg hex]
      by_cases ht : e' = e ∧ r' = r ∧ f' = f
      · rcases ht with ⟨rfl, rfl, rfl⟩
        rw [if_pos ⟨rfl, rfl, rfl⟩, if_pos ⟨rfl, rfl, rfl⟩, hC]
      · rw [if_neg ht, if_neg (fun hc => ht ⟨hc.2.2, hc.1, hc.2.1⟩)]
        exact hC e' r' f'

theorem dinv_disconnect (slot sig recv : Option Nat) (s : DState) (h : DInv s) :
    DInv (disconnect slot sig recv s) := by
  obtain ⟨hU, hB, hC⟩ := h
  cases sig with
  | none =>
    cases recv with
    | none => exact ⟨hU, hB, hC⟩
    | some r =>
      refine ⟨?_, ?_, ?_⟩
      · intro x
        constructor
        · rw [disconnect_recvOnly_fwd]
          by_cases hm : x ∈ connectedSignalsOf (s.inv r)
          · rw [if_pos hm]
            exact keysUnique_dLIS _ _ (hU x).1
          · rw [if_neg hm]
            exact (hU x).1
        · rw [disconnect_recvOnly_inv]
          by_cases hx : x = r
          · subst hx
            rw [pupd_self]
            exact keysUnique_dLISP _ _ (hU x).2
          · rw [pupd_other _ _ hx]
            exact (hU x).2
      · intro e' r' f'
        cases slot with
        | some f =>
          rw [rowCount_disc_recvOnly_some]
          split_ifs with hcond
          · exact le_trans (Nat.sub_le _ _) (hB e' r' f')
          · exact hB e' r' f'
        | none =>
          rw [rowCount_disc_recvOnly_none]
          split_ifs with hcond
          · exact Nat.zero_le 1
          · exact hB e' r' f'
      · intro e' r' f'
        cases slot with
        | some f =>
          rw [rowCount_disc_recvOnly_some, occCount_disc_recvOnly_some]
          by_cases hrf : r' = r ∧ f' = f
          · rw [if_pos hrf]
            by_cases hm : e' ∈ connectedSignalsOf (s.inv r)
            · rw [if_pos ⟨hm, hrf.1, hrf.2⟩]
              have h1 := hC e' r' f'
              have h2 := hB e' r' f'
              omega
            · rw [if_neg (fun hc => hm hc.1)]
              obtain ⟨hr1, hf1⟩ := hrf
              subst hr1
              rw [hC e' r' f']
              exact occ_zero_of_not_connSignals hm f'
          · rw [if_neg (fun hc => hrf ⟨hc.2.1, hc.2.2⟩), if_neg hrf]
            exact hC e' r' f'
        | none =>
          rw [rowCount_disc_recvOnly_none, occCount_disc_recvOnly_none]
          by_cases hr : r' = r
          · rw [if_pos hr]
            by_cases hm : e' ∈ connectedSignalsOf (s.inv r)
            · rw [if_pos ⟨hm, hr⟩]
            · rw [if_neg (fun hc => hm hc.1)]
              subst hr
              rw [hC e' r' f']
              exact occ_zero_of_not_connSignals hm f'
          · rw [if_neg (fun hc => hr hc.2), if_neg hr]
            exact hC e' r' f'
  | some e =>
    cases recv with
    | some r =>
      have hfwd : (disconnect slot (some e) (some r) s).fwd =
          pupd s.fwd e (dLIS slot (some r)) := rfl
      have hinv : (disconnect slot (some e) (some r) s).inv =
          pupd s.inv r (dLISP slot (some e)) := rfl
      refine ⟨?_, ?_, ?_⟩
      · intro x
        constructor
        · rw [hfwd]
          by_cases hx : x = e
          · subst hx
            rw [pupd_self]
            exact keysUnique_dLIS _ _ (hU x).1
          · rw [pupd_other _ _ hx]
            exact (hU x).1
        · rw [hinv]
          by_cases hx : x = r
          · subst hx
            rw [pupd_self]
            exact keysUnique_dLISP _ _ (hU x).2
          · rw [pupd_other _ _ hx]
            exact (hU x).2
      · intro e' r' f'
        cases slot with
        | some f =>
          rw [rowCount_disc_both]
          split_ifs with hcond
          · exact le_trans (Nat.sub_le _ _) (hB e' r' f')
          · exact hB e' r' f'
        | none =>
          rw [rowCount_disc_both_none]
          split_ifs with hcond
          · exact Nat.zero_le 1
          · exact hB e' r' f'
      · intro e' r' f'
        cases slot with
        | some f =>
          rw [rowCount_disc_both, occCount_disc_both]
          by_cases ht : e' = e ∧ r' = r ∧ f' = f
          · rw [if_pos ht, if_pos ⟨ht.2.1, ht.2.2, ht.1⟩, hC]
          · rw [if_neg ht, if_neg (fun hc => ht ⟨hc.2.2, hc.1, hc.2.1⟩)]
            exact hC e' r' f'
        | none =>
          rw [rowCount_disc_both_none, occCount_disc_both_none]
          by_cases ht : e' = e ∧ r' = r
          · rw [if_pos ht, if_pos ⟨ht.2, ht.1⟩]
            have h1 := hC e' r' f'
            have h2 := hB e' r' f'
            omega
          · rw [if_neg ht, if_neg (fun hc => ht ⟨hc.2, hc.1⟩)]
            exact hC e' r' f'
    | none =>
      refine ⟨?_, ?_, ?_⟩
      · intro x
        constructor
        · rw [disconnect_sigOnly_fwd]
          by_cases hx : x = e
          · subst hx
            rw [pupd_self]
            exact keysUnique_dLIS _ _ (hU x).1
          · rw [pupd_other _ _ hx]
            exact (hU x).1
        · rw [disconnect_sigOnly_inv]
          by_cases hm : x ∈ connectedSlotsOf (s.fwd e)
          · rw [if_pos hm]
            exact keysUnique_dLISP _ _ (hU x).2
          · rw [if_neg hm]
            exact (hU x).2
      · intro e' r' f'
        cases slot with
        | some f =>
          rw [rowCount_disc_sigOnly_some]
          split_ifs with hcond
          · exact le_trans (Nat.sub_le _ _) (hB e' r' f')
          · exact hB e' r' f'
        | none =>
          rw [rowCount_disc_sigOnly_none]
          split_ifs with hcond
          · exact Nat.zero_le 1
          · exact hB e' r' f'
      · intro e' r' f'
        cases slot with
        | some f =>
          rw [rowCount_disc_sigOnly_some, occCount_disc_sigOnly_some]
          by_cases hef : e' = e ∧ f' = f
          · rw [if_pos hef]
            by_cases hm : r' ∈ connectedSlotsOf (s.fwd e)
            · rw [if_pos ⟨hm, hef.2, hef.1⟩, hC]
            · rw [if_neg (fun hc => hm hc.1)]
              obtain ⟨he1, hf1⟩ := hef
              subst he1
              have h0 := row_zero_of_not_connSlots hm f'
              have h1 := hC e' r' f'
              omega
          · rw [if_neg hef, if_neg (fun hc => hef ⟨hc.2.2, hc.2.1⟩)]
            exact hC e' r' f'
        | none =>
          rw [rowCount_disc_sigOnly_none, occCount_disc_sigOnly_none]
          by_cases he : e' = e
          · rw [if_pos he]
            by_cases hm : r' ∈ connectedSlotsOf (s.fwd e)
            · rw [if_pos ⟨hm, he⟩]
              have h1 := hC e' r' f'
              have h2 := hB e' r' f'
              omega
            · rw [if_neg (fun hc => hm hc.1)]
              subst he
              have h0 := row_zero_of_not_connSlots hm f'
              have h1 := hC e' r' f'
              omega
          · rw [if_neg he, if_neg (fun hc => he hc.2)]
            exact hC e' r' f'

theorem dinv_runDOps (ops : List DOp) : DInv (runDOps ops) := by
  induction ops using List.reverseRecOn with
  | nil => exact dinv_empty
  | append_singleton ops op ih =>
    have hrun : runDOps (ops ++ [op]) = applyDOp (runDOps ops) op := by
      simp [runDOps, List.foldl_append]
    rw [hrun]
    cases op with
    | reg e r f m => exact dinv_register _ e r f m ih
    | disc slot sig recv => exact dinv_disconnect slot sig recv _ ih

theorem dinv_reachable {s : DState} (h : DReachable s) : DInv s := by
  obtain ⟨ops, rfl⟩ := h
  exact dinv_runDOps ops

/-- Claim C3: in any reachable dispatch state, after `~Signal()` of endpoint
`S` returns, `S`'s own forward table is empty, no inverse table of any
endpoint still lists `S` as a connected emitter, and no emission of any
signal can invoke a slot on `S`; and after `~SlotProvider()` of endpoint `R`
returns, no emission of any signal can invoke a slot on `R`, and `R`'s own
inverse table is empty.  Hence no emission occurring after a destructor
returns can reach the destroyed endpoint. -/
theorem endpoint_destruction_removes_rows (s : DState) (hreach : DReachable s)
    (S R : Nat) :
    (signalDtor S s).fwd S = [] ∧
    (∀ r kv, kv ∈ (signalDtor S s).inv r → S ∉ kv.2) ∧
    (∀ e x, x ∈ emitTargets (signalDtor S s) e → x.1 ≠ S) ∧
    (∀ e x, x ∈ emitTargets (slotProviderDtor R s) e → x.1 ≠ R) ∧
    (slotProviderDtor R s).inv R = [] := by
  obtain ⟨hU, hB, hC⟩ := dinv_reachable hreach
  have hs1fwd : ∀ x, (disconnect none (some S) none s).fwd x =
      if x = S then [] else s.fwd x := by
    intro x
    rw [disconnect_sigOnly_fwd]
    by_cases hx : x = S
    · subst hx
      rw [pupd_self, if_pos rfl]
      rfl
    · rw [pupd_other _ _ hx, if_neg hx]
  have hs1inv : ∀ r, (disconnect none (some S) none s).inv r =
      if r ∈ connectedSlotsOf (s.fwd S)
      then mapVals (fun _ es => es.erase S) (s.inv r) else s.inv r := by
    intro r
    rfl
  refine ⟨?_, ?_, ?_, ?_, ?_⟩
  · show (disconnect none none (some S) (disconnect none (some S) none s)).fwd S = []
    rw [disconnect_recvOnly_fwd]
    by_cases hm : S ∈ connectedSignalsOf ((disconnect none (some S) none s).inv S)
    · rw [if_pos hm]
      have h1 : (disconnect none (some S) none s).fwd S = [] := by
        rw [hs1fwd]
        simp
      unfold dLIS
      rw [h1]
      rfl
    · rw [if_neg hm]
      rw [hs1fwd]
      simp
  · intro r kv hkv
    have hstep : (signalDtor S s).inv =
        pupd (disconnect none (some S) none s).inv S (dLISP none none) := rfl
    rw [hstep] at hkv
    by_cases hr : r = S
    · subst hr
      rw [pupd_self] at hkv
      simp [dLISP] at hkv
    · rw [pupd_other _ _ hr, hs1inv r] at hkv
      by_cases hm : r ∈ connectedSlotsOf (s.fwd S)
      · rw [if_pos hm] at hkv
        obtain ⟨kv0, hkv0, heq⟩ := List.mem_map.mp hkv
        intro hSmem
        rw [← heq] at hSmem
        have hlk : lookupD (s.inv r) kv0.1 = kv0.2 :=
          lookupD_of_mem_unique (hU r).2 hkv0
        have hcnt : (lookupD (s.inv r) kv0.1).count S ≤ 1 :=
          le_of_eq_of_le (hC S r kv0.1).symm (hB S r kv0.1)
        rw [hlk] at hcnt
        have hzero : (kv0.2.erase S).count S = 0 := by
          rw [List.count_erase_self]
          omega
        exact (List.count_eq_zero.mp hzero) hSmem
      · rw [if_neg hm] at hkv
        intro hSmem
        have hlk : lookupD (s.inv r) kv.1 = kv.2 :=
          lookupD_of_mem_unique (hU r).2 hkv
        have hocc : 0 < occCount s r kv.1 S := by
          show 0 < (lookupD (s.inv r) kv.1).count S
          rw [hlk]
          exact List.count_pos_iff.mpr hSmem
        have hrow : 0 < rowCount s S r kv.1 := by
          rw [hC]
          exact hocc
        have hne : lookupD (s.fwd S) r ≠ [] := by
          intro hnil
          unfold rowCount at hrow
          rw [hnil] at hrow
          simp at hrow
        exact hm (mem_connectedSlotsOf_of_lookup hne)
  · intro e x hx hxS
    rw [mem_emitTargets] at hx
    obtain ⟨kv, hkv, row, hrow, rfl⟩ := hx
    have hxS2 : kv.1 = S := hxS
    have hfe : (signalDtor S s).fwd e =
        if e ∈ connectedSignalsOf ((disconnect none (some S) none s).inv S)
        then akeyErase ((disconnect none (some S) none s).fwd e) S
        else (disconnect none (some S) none s).fwd e := rfl
    rw [hfe] at hkv
    by_cases hm : e ∈ connectedSignalsOf ((disconnect none (some S) none s).inv S)
    · rw [if_pos hm] at hkv
      have hprop := (List.mem_filter.mp hkv).2
      simp only [decide_eq_true_eq] at hprop
      exact hprop hxS2
    · rw [if_neg hm] at hkv
      by_cases he : e = S
      · subst he
        rw [hs1fwd] at hkv
        simp at hkv
      · rw [hs1fwd, if_neg he] at hkv
        have hlk : lookupD (s.fwd e) kv.1 = kv.2 :=
          lookupD_of_mem_unique (hU e).1 hkv
        have hrowpos : 0 < rowCount s e kv.1 row.1 := by
          unfold rowCount
          rw [hlk]
          apply List.length_pos.mpr
          intro hnil
          have hmf : row ∈ kv.2.filter (fun p => p.1 = row.1) :=
            List.mem_filter.mpr ⟨hrow, by simp⟩
          rw [hnil] at hmf
          simp at hmf
        have hoccpos : 0 < occCount s kv.1 row.1 e := by
          rw [← hC]
          exact hrowpos
        have hmeminv : e ∈ lookupD (s.inv kv.1) row.1 :=
          List.count_pos_iff.mp hoccpos
        rw [hxS2] at hmeminv
        refine hm (mem_connectedSignalsOf_of_mem (f := row.1) ?_)
        rw [hs1inv S]
        by_cases hmS : S ∈ connectedSlotsOf (s.fwd S)
        · rw [if_pos hmS]
          rw [show lookupD (mapVals (fun _ es => es.erase S) (s.inv S)) row.1 =
            (lookupD (s.inv S) row.1).erase S from lookupD_mapVals _ _ _ (by simp)]
          exact (List.mem_erase_of_ne he).mpr hmeminv
        · rw [if_neg hmS]
          exact hmeminv
  · intro e x hx hxR
    rw [mem_emitTargets] at hx
    obtain ⟨kv, hkv, row, hrow, rfl⟩ := hx
    have hxR2 : kv.1 = R := hxR
    have hfe : (slotProviderDtor R s).fwd e =
        if e ∈ connectedSignalsOf (s.inv R) then akeyErase (s.fwd e) R
        else s.fwd e := rfl
    rw [hfe] at hkv
    by_cases hm : e ∈ connectedSignalsOf (s.inv R)
    · rw [if_pos hm] at hkv
      have hprop := (List.mem_filter.mp hkv).2
      simp only [decide_eq_true_eq] at hprop
      exact hprop hxR2
    · rw [if_neg hm] at hkv
      have hlk : lookupD (s.fwd e) kv.1 = kv.2 :=
        lookupD_of_mem_unique (hU e).1 hkv
      have hrowpos : 0 < rowCount s e kv.1 row.1 := by
        unfold rowCount
        rw [hlk]
        apply List.length_pos.mpr
        intro hnil
        have hmf : row ∈ kv.2.filter (fun p => p.1 = row.1) :=
          List.mem_filter.mpr ⟨hrow, by simp⟩
        rw [hnil] at hmf
        simp at hmf
      have hoccpos : 0 < occCount s kv.1 row.1 e := by
        rw [← hC]
        exact hrowpos
      have hmeminv : e ∈ lookupD (s.inv kv.1) row.1 :=
        List.count_pos_iff.mp hoccpos
      rw [hxR2] at hmeminv
      exact hm (mem_connectedSignalsOf_of_mem hmeminv)
  · show (disconnect none none (some R) s).inv R = []
    rw [disconnect_recvOnly_inv, pupd_self]
    rfl

/-- Witness for claim C3 at a concrete reachable state: one registered
connection from signal `1` to receiver `2` on slot `3`, then the destructors
of endpoints `1` and `2`. -/
theorem endpoint_destruction_removes_rows_witness :
    (signalDtor 1 (runDOps [DOp.reg 1 2 3 CType.queued])).fwd 1 = [] ∧
    (∀ r kv, kv ∈ (signalDtor 1 (runDOps [DOp.reg 1 2 3 CType.queued])).inv r →
      1 ∉ kv.2) ∧
    (∀ e x, x ∈ emitTargets (signalDtor 1 (runDOps [DOp.reg 1 2 3 CType.queued])) e →
      x.1 ≠ 1) ∧
    (∀ e x,
      x ∈ emitTargets (slotProviderDtor 2 (runDOps [DOp.reg 1 2 3 CType.queued])) e →
      x.1 ≠ 2) ∧
    (slotProviderDtor 2 (runDOps [DOp.reg 1 2 3 CType.queued])).inv 2 = [] :=
  endpoint_destruction_removes_rows (runDOps [DOp.reg 1 2 3 CType.queued])
    ⟨[DOp.reg 1 2 3 CType.queued], rfl⟩ 1 2

end QtMT
